import Mathlib

/-!
A shallow embedding of the Klondike solitaire engine of `solitare.py`:
cards, the game state, the deal, the five move operations, the
auto-move-to-foundation sweep, the win check, and the session layer
(undo stack, two-phase selection, win recording), together with proofs
about them.

Piles are Lean lists with the *top of the pile at the tail*, exactly as
in the Python source (`pile[-1]` is the top, `append`/`pop` work at the
tail).  Python `while` loops over piles become structural recursions;
card values are `Int` (Python ints) and suits are `Nat` indices `0..3`.
-/

set_option maxHeartbeats 1000000

namespace Solitare

/-- A playing card (`Card` in the source): `value` is 1..13
(Ace..King), `suit` is an index 0..3 into the suit table, plus the
mutable face-up flag. -/
structure Card where
  value : Int
  suit : Nat
  face_up : Bool
deriving DecidableEq, Repr

/-- `Card.color_red`: hearts (1) or diamonds (2) are red. -/
def Card.color_red (c : Card) : Bool :=
  c.suit == 1 || c.suit == 2

/-- The 52 cards built by `new_deck` before shuffling: for each suit
`s` in 0..3, values 1..13, all face-down.  The shuffle is modelled by
quantifying over permutations of this list. -/
def new_deck_cards : List Card :=
  (List.range 4).flatMap (fun s => (List.range 13).map (fun v => ⟨(v : Int) + 1, s, false⟩))

/-- `GameState`: stock, waste, four foundation piles, seven tableau
columns, the move counter, the deal timestamp and the win flag. -/
structure GameState where
  stock : List Card := []
  waste : List Card := []
  foundations : List (List Card) := [[], [], [], []]
  tableaus : List (List Card) := [[], [], [], [], [], [], []]
  moves : Nat := 0
  start_time : Nat := 0
  won : Bool := false
deriving DecidableEq, Repr

/-- The per-card copy performed inside `GameState.clone`
(`Card(c.value, c.suit, c.face_up)`). -/
def Card.copy (c : Card) : Card :=
  ⟨c.value, c.suit, c.face_up⟩

/-- `GameState.clone`: the manual deep copy used for undo snapshots. -/
def GameState.clone (gs : GameState) : GameState :=
  { stock := gs.stock.map Card.copy
    waste := gs.waste.map Card.copy
    foundations := gs.foundations.map (fun pile => pile.map Card.copy)
    tableaus := gs.tableaus.map (fun pile => pile.map Card.copy)
    moves := gs.moves
    start_time := gs.start_time
    won := gs.won }

/-- `can_place_on_tableau`: a King on an empty target, otherwise
alternating colors and descending by one rank. -/
def can_place_on_tableau (moving : Card) (target : Option Card) : Bool :=
  match target with
  | none => moving.value == 13
  | some t => if moving.color_red == t.color_red then false else moving.value == t.value - 1

/-- `can_place_on_foundation`: an Ace on an empty foundation, otherwise
same suit and ascending by one rank. -/
def can_place_on_foundation (moving : Card) (foundation_top : Option Card) : Bool :=
  match foundation_top with
  | none => moving.value == 1
  | some t => moving.suit == t.suit && moving.value == t.value + 1

/-- `flip_if_needed`: turn the top card of a pile face-up when present
and face-down. -/
def flip_if_needed (pile : List Card) : List Card :=
  match pile.getLast? with
  | none => pile
  | some c => if c.face_up then pile else pile.dropLast ++ [{ c with face_up := true }]

/-- The placement target the source computes for a tableau column:
`tableaus[col][-1] if tableaus[col] and tableaus[col][-1].face_up else None`. -/
def tableau_target (pile : List Card) : Option Card :=
  match pile.getLast? with
  | none => none
  | some t => if t.face_up then some t else none

/-- The per-pile test of `move_waste_to_foundation`:
`can_place_on_foundation(card, top) and (top is None or top.suit == card.suit)`. -/
def foundation_accepts (card : Card) (pile : List Card) : Bool :=
  can_place_on_foundation card pile.getLast? &&
    (match pile.getLast? with
     | none => true
     | some t => t.suit == card.suit)

/-- `move_waste_to_foundation`: place the waste top on the first of the
four foundation piles that accepts it. -/
def move_waste_to_foundation (gs : GameState) : Bool × GameState :=
  match gs.waste.getLast? with
  | none => (false, gs)
  | some card =>
    match (List.range 4).find? (fun s => foundation_accepts card (gs.foundations.getD s [])) with
    | none => (false, gs)
    | some s =>
      (true, { gs with
        waste := gs.waste.dropLast
        foundations := gs.foundations.set s (gs.foundations.getD s [] ++ [card])
        moves := gs.moves + 1 })

/-- `move_waste_to_tableau`: place the waste top on column `col`. -/
def move_waste_to_tableau (gs : GameState) (col : Nat) : Bool × GameState :=
  match gs.waste.getLast? with
  | none => (false, gs)
  | some card =>
    if can_place_on_tableau card (tableau_target (gs.tableaus.getD col [])) then
      (true, { gs with
        waste := gs.waste.dropLast
        tableaus := gs.tableaus.set col (gs.tableaus.getD col [] ++ [card])
        moves := gs.moves + 1 })
    else (false, gs)

/-- `move_tableau_to_foundation`: move the face-up top of column `col`
to the foundation pile indexed by the card's suit, then flip the newly
exposed card if needed. -/
def move_tableau_to_foundation (gs : GameState) (col : Nat) : Bool × GameState :=
  match (gs.tableaus.getD col []).getLast? with
  | none => (false, gs)
  | some card =>
    if card.face_up = false then (false, gs)
    else
      if can_place_on_foundation card ((gs.foundations.getD card.suit []).getLast?) then
        (true, { gs with
          foundations := gs.foundations.set card.suit (gs.foundations.getD card.suit [] ++ [card])
          tableaus := gs.tableaus.set col (flip_if_needed (gs.tableaus.getD col []).dropLast)
          moves := gs.moves + 1 })
      else (false, gs)

/-- The start index of the maximal face-up run at the tail of a pile:
the source scans `idx` downward from the top while cards are face-up
and returns `idx + 1`, i.e. the pile length minus the length of the
face-up suffix. -/
def first_faceup_idx (pile : List Card) : Nat :=
  pile.length - (pile.reverse.takeWhile (fun c => c.face_up)).length

/-- `move_tableau_to_tableau`: move the slice
`pile[first_faceup : first_faceup + depth]` of the face-up run of `src`
onto `dst` when its first card may be placed there, then flip the new
top of `src` if needed. -/
def move_tableau_to_tableau (gs : GameState) (src dst depth : Nat) : Bool × GameState :=
  if src == dst then (false, gs)
  else
    let pile := gs.tableaus.getD src []
    if pile.isEmpty then (false, gs)
    else
      let first_faceup := first_faceup_idx pile
      if pile.length ≤ first_faceup then (false, gs)
      else
        let run := pile.drop first_faceup
        if depth < 1 || run.length < depth then (false, gs)
        else
          match (run.take depth).head? with
          | none => (false, gs)
          | some moving_first =>
            if can_place_on_tableau moving_first (tableau_target (gs.tableaus.getD dst [])) then
              (true, { gs with
                tableaus := ((gs.tableaus.set dst (gs.tableaus.getD dst [] ++ run.take depth)).set src
                  (flip_if_needed (pile.take first_faceup ++ pile.drop (first_faceup + depth))))
                moves := gs.moves + 1 })
            else (false, gs)

/-- The draw loop of `draw_from_stock`: pop `k` cards from the stock
tail, flip each face-up, append each to the waste tail. -/
def pop_to_waste : Nat → List Card → List Card → List Card × List Card
  | 0, stock, waste => (stock, waste)
  | k + 1, stock, waste =>
    match stock.getLast? with
    | none => (stock, waste)
    | some c => pop_to_waste k stock.dropLast (waste ++ [{ c with face_up := true }])

/-- The recycle loop of `draw_from_stock`: pop cards from the waste
tail (hence the traversal of the reversed waste), turn each face-down,
append each to the stock tail. -/
def recycle_onto (stock : List Card) : List Card → List Card
  | [] => stock
  | c :: rest => recycle_onto (stock ++ [{ c with face_up := false }]) rest

/-- `draw_from_stock`: draw `min(draw_count, len(stock))` cards when the
stock is non-empty; otherwise recycle a non-empty waste back into the
stock; otherwise fail. -/
def draw_from_stock (gs : GameState) (draw_count : Nat) : Bool × GameState :=
  if gs.stock.isEmpty = false then
    let sw := pop_to_waste (min draw_count gs.stock.length) gs.stock gs.waste
    (true, { gs with stock := sw.1, waste := sw.2, moves := gs.moves + 1 })
  else if gs.waste.isEmpty = false then
    (true, { gs with
      stock := recycle_onto gs.stock gs.waste.reverse
      waste := []
      moves := gs.moves + 1 })
  else (false, gs)

/-- `check_win`: all 52 cards on the foundations sets the win flag. -/
def check_win (gs : GameState) : Bool × GameState :=
  if (gs.foundations.map List.length).sum == 52 then (true, { gs with won := true })
  else (false, gs)

/-- One pass of `auto_move_safe` over the seven columns: a
tableau-to-foundation attempt per column, counting successes. -/
def auto_pass_cols : List Nat → GameState → Nat × GameState
  | [], gs => (0, gs)
  | c :: rest, gs =>
    let bg := move_tableau_to_foundation gs c
    let ng := auto_pass_cols rest bg.2
    ((if bg.1 then 1 else 0) + ng.1, ng.2)

/-- One full pass of the `auto_move_safe` loop body: one
waste-to-foundation attempt, then one tableau-to-foundation attempt per
column. -/
def auto_pass (gs : GameState) : Nat × GameState :=
  let wg := move_waste_to_foundation gs
  let ng := auto_pass_cols (List.range 7) wg.2
  ((if wg.1 then 1 else 0) + ng.1, ng.2)

/-- The `while moved:` loop of `auto_move_safe`, with explicit fuel:
repeat passes until a pass performs no move. -/
def auto_loop : Nat → GameState → Nat × GameState
  | 0, gs => (0, gs)
  | fuel + 1, gs =>
    let cg := auto_pass gs
    if cg.1 = 0 then cg
    else
      let ng := auto_loop fuel cg.2
      (cg.1 + ng.1, ng.2)

/-- Cards that can still leave for a foundation sit in the waste or on
a tableau; every successful pass moves at least one of them, so this
quantity bounds the number of passes of `auto_move_safe`. -/
def auto_measure (gs : GameState) : Nat :=
  gs.waste.length + (gs.tableaus.map List.length).sum

/-- `auto_move_safe`: repeat passes until a full pass performs no
successful move; returns the number of moves performed.  The fuel
`auto_measure gs + 1` is provably sufficient. -/
def auto_move_safe (gs : GameState) : Nat × GameState :=
  auto_loop (auto_measure gs + 1) gs

/-- The inner deal loop for one tableau column: pop `r` more cards from
the deck tail onto the column; the final pop (`i == col` in the source)
is turned face-up before being appended. -/
def deal_col_loop : Nat → List Card → List Card → List Card × List Card
  | 0, deck, col => (col, deck)
  | r + 1, deck, col =>
    match deck.getLast? with
    | none => (col, deck)
    | some card =>
      deal_col_loop r deck.dropLast
        (col ++ [if r = 0 then { card with face_up := true } else card])

/-- The outer deal loop: deal columns `0 .. n-1`, column `c` receiving
`c + 1` cards. -/
def deal_cols_loop : Nat → List Card → List (List Card) × List Card
  | 0, deck => ([], deck)
  | c + 1, deck =>
    let cs := deal_cols_loop c deck
    let cd := deal_col_loop (c + 1) cs.2 []
    (cs.1 ++ [cd.1], cd.2)

/-- `deal_new_game`: deal seven columns from the (shuffled) deck; the
rest of the deck becomes the stock; `start_time` is the supplied clock
reading (`time.monotonic()` in the source). -/
def deal_new_game (deck : List Card) (now : Nat) : GameState :=
  let td := deal_cols_loop 7 deck
  { stock := td.2
    waste := []
    foundations := [[], [], [], []]
    tableaus := td.1
    moves := 0
    start_time := now
    won := false }

/-- The identity of a card, ignoring its face flag: `(rank, suit)`. -/
def idOf (c : Card) : Int × Nat :=
  (c.value, c.suit)

/-- The multiset of card identities of a pile. -/
def idsM (l : List Card) : Multiset (Int × Nat) :=
  (l.map idOf : List (Int × Nat))

/-- All card identities of a state, across stock, waste, foundations
and tableaus. -/
def allIds (gs : GameState) : Multiset (Int × Nat) :=
  idsM gs.stock + idsM gs.waste +
    (gs.foundations.map idsM).sum + (gs.tableaus.map idsM).sum

/-- The identities of the full 52-card deck. -/
def fullIds : Multiset (Int × Nat) :=
  idsM new_deck_cards

/-- Turning the last card of a list face-up (the `i == col` branch of
the deal loop, seen from the resulting column). -/
def flip_last : List Card → List Card
  | [] => []
  | [a] => [{ a with face_up := true }]
  | a :: b :: rest => a :: flip_last (b :: rest)

/-- Triangle numbers: the number of cards consumed by dealing the
first `n` tableau columns. -/
def tri : Nat → Nat
  | 0 => 0
  | n + 1 => tri n + (n + 1)

/-- Repeatedly draw until the stock is empty (fuel-indexed; the stock
length is provably sufficient fuel when `draw_count ≥ 1`).  This models
a player pressing draw until the stock runs out. -/
def drain_loop (dc : Nat) : Nat → GameState → GameState
  | 0, gs => gs
  | fuel + 1, gs =>
    if gs.stock.isEmpty then gs else drain_loop dc fuel (draw_from_stock gs dc).2

/-- Draw from the stock until it is empty. -/
def drain_stock (gs : GameState) (dc : Nat) : GameState :=
  drain_loop dc gs.stock.length gs

/-- `upper` may sit directly on `lower` in a tableau run: one rank
lower and of the other color. -/
def stacked (lower upper : Card) : Prop :=
  upper.value = lower.value - 1 ∧ upper.color_red ≠ lower.color_red

/-- The maximal face-up suffix of a tableau pile (bottom to top). -/
def faceUpRun (pile : List Card) : List Card :=
  (pile.reverse.takeWhile (fun c => c.face_up)).reverse

/-- A tableau pile is a face-down prefix followed by a face-up suffix. -/
def SplitOk (pile : List Card) : Prop :=
  ∃ d u, pile = d ++ u ∧ (∀ c ∈ d, c.face_up = false) ∧ (∀ c ∈ u, c.face_up = true)

/-- A foundation pile holds, bottom to top, ranks `1..k` of a single
suit. -/
def foundationOk (p : List Card) : Prop :=
  (∀ i (h : i < p.length), (p.get ⟨i, h⟩).value = (i : Int) + 1) ∧
  (∀ c ∈ p, ∀ d ∈ p, c.suit = d.suit)

/-- The inductive invariant carried across all moves: well-formed pile
counts, ascending same-suit foundations, split tableau piles whose
face-up runs alternate and descend, a face-up waste, and conservation
of the 52 card identities. -/
structure Inv (gs : GameState) : Prop where
  flen : gs.foundations.length = 4
  tlen : gs.tableaus.length = 7
  fok : ∀ p ∈ gs.foundations, foundationOk p
  tsplit : ∀ p ∈ gs.tableaus, SplitOk p
  trun : ∀ p ∈ gs.tableaus, List.Chain' stacked (faceUpRun p)
  wup : ∀ c ∈ gs.waste, c.face_up = true
  ids : allIds gs = fullIds

/-- States reachable from a fresh deal (any shuffle) by the five move
operations, with pile indices in range as supplied by the UI. -/
inductive Reachable : GameState → Prop where
  | deal (deck : List Card) (now : Nat) (h : deck.Perm new_deck_cards) :
      Reachable (deal_new_game deck now)
  | draw (gs : GameState) (dc : Nat) (h : Reachable gs) :
      Reachable (draw_from_stock gs dc).2
  | waste_foundation (gs : GameState) (h : Reachable gs) :
      Reachable (move_waste_to_foundation gs).2
  | waste_tableau (gs : GameState) (col : Nat) (hcol : col < 7) (h : Reachable gs) :
      Reachable (move_waste_to_tableau gs col).2
  | tableau_foundation (gs : GameState) (col : Nat) (hcol : col < 7) (h : Reachable gs) :
      Reachable (move_tableau_to_foundation gs col).2
  | tableau_tableau (gs : GameState) (src dst depth : Nat)
      (hsrc : src < 7) (hdst : dst < 7) (h : Reachable gs) :
      Reachable (move_tableau_to_tableau gs src dst depth).2

/-- One of the five engine move operations, with its arguments. -/
inductive MoveOp where
  | draw (dc : Nat)
  | waste_to_foundation
  | waste_to_tableau (col : Nat)
  | tableau_to_foundation (col : Nat)
  | tableau_to_tableau (src dst depth : Nat)
deriving DecidableEq, Repr

/-- Apply a move operation to a state. -/
def apply_move : MoveOp → GameState → Bool × GameState
  | .draw dc, gs => draw_from_stock gs dc
  | .waste_to_foundation, gs => move_waste_to_foundation gs
  | .waste_to_tableau col, gs => move_waste_to_tableau gs col
  | .tableau_to_foundation col, gs => move_tableau_to_foundation gs col
  | .tableau_to_tableau src dst depth, gs => move_tableau_to_tableau gs src dst depth

/-- A cursor zone of the UI (`self.ui.cursor`). -/
inductive Zone where
  | stock
  | waste
  | foundation (idx : Nat)
  | tableau (idx : Nat)
deriving DecidableEq, Repr

/-- A remembered selection origin (`self._sel`); a tableau selection
carries its run depth. -/
inductive Sel where
  | waste
  | foundation (idx : Nat)
  | tableau (idx : Nat) (depth : Nat)
deriving DecidableEq, Repr

/-- The session (`Game`): the live state, the bounded undo stack and
the two-phase selection. -/
structure Game where
  state : GameState
  undo_stack : List GameState := []
  sel : Option Sel := none
deriving DecidableEq, Repr

/-- `Game.push_undo`: append a snapshot; drop the oldest entry beyond
200. -/
def push_undo (g : Game) : Game :=
  let st := g.undo_stack ++ [g.state.clone]
  if 200 < st.length then { g with undo_stack := st.drop 1 }
  else { g with undo_stack := st }

/-- `Game.undo`: pop the latest snapshot into the live state, if any. -/
def undo (g : Game) : Game :=
  match g.undo_stack.getLast? with
  | none => g
  | some s => { g with state := s, undo_stack := g.undo_stack.dropLast }

/-- The placement phase of `Game.select_or_move` (its `else` branch):
given the remembered source and the cursor as destination, attempt the
corresponding move; the foundation-to-tableau case is inlined in the
source rather than a move helper, and its `foundations[src[1]][-1]`
indexing is unguarded, so with an empty selected foundation it raises
IndexError — modelled as `none`. -/
def attempt_place (gs : GameState) (src : Sel) (cursor : Zone) : Option (Bool × GameState) :=
  match src with
  | .waste =>
    match cursor with
    | .foundation _ => some (move_waste_to_foundation gs)
    | .tableau idx => some (move_waste_to_tableau gs idx)
    | _ => some (false, gs)
  | .foundation fidx =>
    match cursor with
    | .tableau idx =>
      match (gs.foundations.getD fidx []).getLast? with
      | none => none
      | some card =>
        if can_place_on_tableau card (tableau_target (gs.tableaus.getD idx [])) then
          some (true, { gs with
            tableaus := gs.tableaus.set idx (gs.tableaus.getD idx [] ++ [card])
            foundations := gs.foundations.set fidx (gs.foundations.getD fidx []).dropLast
            moves := gs.moves + 1 })
        else some (false, gs)
    | _ => some (false, gs)
  | .tableau s_col depth =>
    match cursor with
    | .foundation _ => some (move_tableau_to_foundation gs s_col)
    | .tableau idx => some (move_tableau_to_tableau gs s_col idx depth)
    | _ => some (false, gs)

/-- The outcome of one `select_or_move` call: a normal return, or an
uncaught exception escaping with the session object in the given
state. -/
inductive StepResult where
  | ok (g : Game)
  | crash (g : Game)
deriving DecidableEq, Repr

/-- `Game.select_or_move`: with no selection, the cursor either draws
(on the stock) or remembers a source; with a selection, push a
snapshot, attempt the placement, and pop the snapshot back if nothing
moved.  If the placement raises (empty selected foundation), the
exception escapes before the rollback and the selection reset run. -/
def select_or_move (g : Game) (cursor : Zone) (draw_count : Nat) : StepResult :=
  match g.sel with
  | none =>
    match cursor with
    | .stock =>
      let g1 := push_undo g
      .ok { g1 with state := (draw_from_stock g1.state draw_count).2 }
    | .waste =>
      .ok (if g.state.waste.isEmpty then g else { g with sel := some .waste })
    | .foundation idx =>
      .ok (if (g.state.foundations.getD idx []).isEmpty then g
        else { g with sel := some (.foundation idx) })
    | .tableau idx =>
      .ok (if (g.state.tableaus.getD idx []).any (fun c => c.face_up) then
        { g with sel := some (.tableau idx 1) }
      else g)
  | some src =>
    let g1 := push_undo g
    match attempt_place g1.state src cursor with
    | none => .crash g1
    | some mg =>
      let g2 := { g1 with state := mg.2 }
      let g3 :=
        if mg.1 then g2
        else
          match g2.undo_stack.getLast? with
          | none => g2
          | some s => { g2 with state := s, undo_stack := g2.undo_stack.dropLast }
      .ok { g3 with sel := none }

/-- The `D` key handler of the main loop: speculative snapshot, draw,
then the optional auto-move sweep. -/
def press_draw (g : Game) (draw_count : Nat) (auto_move : Bool) : Game :=
  let g1 := push_undo g
  let g2 := { g1 with state := (draw_from_stock g1.state draw_count).2 }
  if auto_move then { g2 with state := (auto_move_safe g2.state).2 } else g2

/-- The `A` key handler of the main loop: speculative snapshot, then
the auto-move sweep. -/
def press_auto (g : Game) : Game :=
  let g1 := push_undo g
  { g1 with state := (auto_move_safe g1.state).2 }

/-- A leaderboard entry as recorded by `save_score_if_win` (the name
and date strings are irrelevant to the claims and omitted). -/
structure ScoreEntry where
  time_s : Nat
  moves : Nat
  draw : Nat
deriving DecidableEq, Repr

/-- The main-loop session slice relevant to win recording: the state
and the two leaderboard rankings. -/
structure LoopSession where
  state : GameState
  best_times : List ScoreEntry := []
  fewest_moves : List ScoreEntry := []
  win_time : Nat := 0
deriving DecidableEq, Repr

/-- `Game.save_score_if_win`: when the state is won, compute the
elapsed time and insert the entry into both rankings (sorted, capped at
20). -/
def save_score_if_win (now dc : Nat) (s : LoopSession) : LoopSession :=
  if s.state.won then
    let wt := now - s.state.start_time
    let entry : ScoreEntry := ⟨wt, s.state.moves, dc⟩
    { s with
      win_time := wt
      best_times := ((s.best_times ++ [entry]).mergeSort (fun a b => a.time_s ≤ b.time_s)).take 20
      fewest_moves := ((s.fewest_moves ++ [entry]).mergeSort (fun a b => a.moves ≤ b.moves)).take 20 }
  else s

/-- One iteration of the win-check portion of `game_loop`:
`if check_win(self.state): self.save_score_if_win()`. -/
def win_frame (now dc : Nat) (s : LoopSession) : LoopSession :=
  let wg := check_win s.state
  let s1 := { s with state := wg.2 }
  if wg.1 then save_score_if_win now dc s1 else s1

/-- A state whose column 0 holds the face-up run `5♥, 4♠` (bottom to
top) and whose column 1 is topped by the face-up `6♠`. -/
def cex_tt_state : GameState :=
  { tableaus := [[⟨5, 1, true⟩, ⟨4, 0, true⟩], [⟨6, 0, true⟩], [], [], [], [], []] }

/-- A state whose stock is `A♠, 2♠, 3♠` (top of stock `3♠`). -/
def cex_draw_state : GameState :=
  { stock := [⟨1, 0, false⟩, ⟨2, 0, false⟩, ⟨3, 0, false⟩] }

/-- The state with every pile empty. -/
def empty_state : GameState := {}

/-- The thirteen cards of suit `s`, face-up, Ace at the bottom. -/
def full_suit (s : Nat) : List Card :=
  (List.range 13).map (fun v => ⟨(v : Int) + 1, s, true⟩)

/-- A state with all 52 cards on the foundations and `won` not yet
set. -/
def won_ready_state : GameState :=
  { foundations := [full_suit 0, full_suit 1, full_suit 2, full_suit 3] }

/-- A state with an empty stock and a one-card waste. -/
def recycle_state : GameState := { waste := [⟨1, 0, true⟩] }

/-- A state with a one-card stock. -/
def single_stock_state : GameState := { stock := [⟨7, 2, false⟩] }

/-- A game about to draw its one stock card. -/
def undo_witness_game : Game := { state := single_stock_state }

/-- A game with a waste selection remembered while the waste is empty:
any placement attempt from it fails. -/
def rollback_witness_game : Game := { state := empty_state, sel := some Sel.waste }

/-- A session remembering an empty foundation as the selection (as
after selecting an ace pile and undoing): placing it crashes. -/
def crash_witness_game : Game := { state := empty_state, sel := some (Sel.foundation 0) }

theorem idsM_append (l1 l2 : List Card) : idsM (l1 ++ l2) = idsM l1 + idsM l2 := by
  simp [idsM]

theorem idsM_nil : idsM [] = 0 := rfl

theorem idsM_card (l : List Card) : Multiset.card (idsM l) = l.length := by
  simp [idsM]

theorem recycle_onto_spec (l stock : List Card) :
    recycle_onto stock l = stock ++ l.map (fun c => { c with face_up := false }) := by
  induction l generalizing stock with
  | nil => simp [recycle_onto]
  | cons c rest ih => simp [recycle_onto, ih]

theorem pop_to_waste_spec (k : Nat) (stock waste : List Card) (hk : k ≤ stock.length) :
    pop_to_waste k stock waste =
      (stock.take (stock.length - k),
       waste ++ (stock.drop (stock.length - k)).reverse.map (fun c => { c with face_up := true })) := by
  induction k generalizing stock waste with
  | zero => simp [pop_to_waste]
  | succ k ih =>
    rcases List.eq_nil_or_concat stock with h | ⟨s, a, h⟩
    · subst h; simp at hk
    · subst h
      simp only [List.concat_eq_append] at hk ⊢
      have hs : k ≤ s.length := by
        simpa using hk
      have h1 : (s ++ [a]).length - (k + 1) = s.length - k := by
        simp
      rw [show pop_to_waste (k + 1) (s ++ [a]) waste
            = pop_to_waste k s (waste ++ [{ a with face_up := true }]) by
          simp [pop_to_waste, List.getLast?_concat, List.dropLast_concat]]
      rw [ih s _ hs, h1,
        List.take_append_of_le_length (Nat.sub_le _ _),
        List.drop_append_of_le_length (Nat.sub_le _ _)]
      simp

theorem flip_last_cons (a : Card) (l : List Card) (h : l ≠ []) :
    flip_last (a :: l) = a :: flip_last l := by
  cases l with
  | nil => exact absurd rfl h
  | cons b rest => rfl

theorem flip_last_eq (l : List Card) (h : l ≠ []) :
    flip_last l = l.dropLast ++ [{ l.getLast h with face_up := true }] := by
  induction l with
  | nil => exact absurd rfl h
  | cons a rest ih =>
    cases rest with
    | nil => simp [flip_last]
    | cons b rest2 =>
      rw [flip_last_cons a _ (by simp)]
      rw [ih (by simp)]
      simp [List.getLast]

theorem flip_last_length (l : List Card) : (flip_last l).length = l.length := by
  induction l with
  | nil => rfl
  | cons a rest ih =>
    cases rest with
    | nil => rfl
    | cons b rest2 => rw [flip_last_cons a _ (by simp)]; simpa using ih

theorem flip_last_ids (l : List Card) : (flip_last l).map idOf = l.map idOf := by
  induction l with
  | nil => rfl
  | cons a rest ih =>
    cases rest with
    | nil => rfl
    | cons b rest2 => rw [flip_last_cons a _ (by simp)]; simpa [idOf] using ih

theorem deal_col_loop_spec (r : Nat) (deck col : List Card) (hr : r ≤ deck.length) :
    deal_col_loop r deck col =
      (col ++ flip_last (deck.drop (deck.length - r)).reverse,
       deck.take (deck.length - r)) := by
  induction r generalizing deck col with
  | zero => simp [deal_col_loop, flip_last]
  | succ r ih =>
    rcases List.eq_nil_or_concat deck with h | ⟨s, a, h⟩
    · subst h; simp at hr
    · subst h
      simp only [List.concat_eq_append] at hr ⊢
      have hs : r ≤ s.length := by simpa using hr
      have h1 : (s ++ [a]).length - (r + 1) = s.length - r := by simp
      rw [show deal_col_loop (r + 1) (s ++ [a]) col
            = deal_col_loop r s (col ++ [if r = 0 then { a with face_up := true } else a]) by
          simp [deal_col_loop, List.getLast?_concat, List.dropLast_concat]]
      rw [ih s _ hs, h1,
        List.take_append_of_le_length (Nat.sub_le _ _),
        List.drop_append_of_le_length (Nat.sub_le _ _)]
      rcases Nat.eq_zero_or_pos r with hr0 | hrpos
      · subst hr0
        simp [flip_last]
      · have hne : (s.drop (s.length - r)).reverse ≠ [] := by
          simp only [ne_eq, List.reverse_eq_nil_iff, List.drop_eq_nil_iff, not_le]
          omega
        rw [List.reverse_append, List.reverse_singleton,
          show ([a] ++ (s.drop (s.length - r)).reverse : List Card)
            = a :: (s.drop (s.length - r)).reverse by simp,
          flip_last_cons a _ hne]
        simp [Nat.pos_iff_ne_zero.mp hrpos]

theorem card_copy_id : Card.copy = id := funext fun _ => rfl

theorem clone_eq (gs : GameState) : gs.clone = gs := by
  cases gs
  simp [GameState.clone, card_copy_id]

theorem w2f_cases (gs : GameState) :
    ((move_waste_to_foundation gs).1 = false → (move_waste_to_foundation gs).2 = gs) ∧
    ((move_waste_to_foundation gs).1 = true → (move_waste_to_foundation gs).2.moves = gs.moves + 1) := by
  unfold move_waste_to_foundation
  repeat' (split <;> try simp)

theorem w2t_cases (gs : GameState) (col : Nat) :
    ((move_waste_to_tableau gs col).1 = false → (move_waste_to_tableau gs col).2 = gs) ∧
    ((move_waste_to_tableau gs col).1 = true → (move_waste_to_tableau gs col).2.moves = gs.moves + 1) := by
  unfold move_waste_to_tableau
  repeat' (split <;> try simp)

theorem t2f_cases (gs : GameState) (col : Nat) :
    ((move_tableau_to_foundation gs col).1 = false → (move_tableau_to_foundation gs col).2 = gs) ∧
    ((move_tableau_to_foundation gs col).1 = true →
      (move_tableau_to_foundation gs col).2.moves = gs.moves + 1) := by
  unfold move_tableau_to_foundation
  repeat' (split <;> try simp)

theorem t2t_cases (gs : GameState) (src dst depth : Nat) :
    ((move_tableau_to_tableau gs src dst depth).1 = false →
      (move_tableau_to_tableau gs src dst depth).2 = gs) ∧
    ((move_tableau_to_tableau gs src dst depth).1 = true →
      (move_tableau_to_tableau gs src dst depth).2.moves = gs.moves + 1) := by
  unfold move_tableau_to_tableau
  repeat' (split <;> try simp)

theorem draw_cases (gs : GameState) (dc : Nat) :
    ((draw_from_stock gs dc).1 = false → (draw_from_stock gs dc).2 = gs) ∧
    ((draw_from_stock gs dc).1 = true → (draw_from_stock gs dc).2.moves = gs.moves + 1) := by
  unfold draw_from_stock
  repeat' (split <;> try simp)

/-- C5: each of the five move operations either succeeds returning
`true` with the move counter incremented by exactly one, or fails
returning `false` with the state entirely unchanged; being total Lean
functions they raise no exception on any input state, column index or
depth. -/
theorem c5_moves_succeed_or_noop :
    ∀ (gs : GameState) (dc col col2 src dst depth : Nat),
    (((draw_from_stock gs dc).1 = false → (draw_from_stock gs dc).2 = gs) ∧
     ((draw_from_stock gs dc).1 = true → (draw_from_stock gs dc).2.moves = gs.moves + 1)) ∧
    (((move_waste_to_foundation gs).1 = false → (move_waste_to_foundation gs).2 = gs) ∧
     ((move_waste_to_foundation gs).1 = true →
       (move_waste_to_foundation gs).2.moves = gs.moves + 1)) ∧
    (((move_waste_to_tableau gs col).1 = false → (move_waste_to_tableau gs col).2 = gs) ∧
     ((move_waste_to_tableau gs col).1 = true →
       (move_waste_to_tableau gs col).2.moves = gs.moves + 1)) ∧
    (((move_tableau_to_foundation gs col2).1 = false →
       (move_tableau_to_foundation gs col2).2 = gs) ∧
     ((move_tableau_to_foundation gs col2).1 = true →
       (move_tableau_to_foundation gs col2).2.moves = gs.moves + 1)) ∧
    (((move_tableau_to_tableau gs src dst depth).1 = false →
       (move_tableau_to_tableau gs src dst depth).2 = gs) ∧
     ((move_tableau_to_tableau gs src dst depth).1 = true →
       (move_tableau_to_tableau gs src dst depth).2.moves = gs.moves + 1)) := by
  intro gs dc col col2 src dst depth
  exact ⟨draw_cases gs dc, w2f_cases gs, w2t_cases gs col, t2f_cases gs col2,
    t2t_cases gs src dst depth⟩

theorem draw_nonempty (gs : GameState) (dc : Nat) (h : gs.stock ≠ []) :
    draw_from_stock gs dc =
      (true, { gs with
        stock := gs.stock.take (gs.stock.length - min dc gs.stock.length)
        waste := gs.waste ++ (gs.stock.drop (gs.stock.length - min dc gs.stock.length)).reverse.map
          (fun c => { c with face_up := true })
        moves := gs.moves + 1 }) := by
  have h0 : gs.stock.isEmpty = false := by simp [List.isEmpty_iff, h]
  have hk : min dc gs.stock.length ≤ gs.stock.length := Nat.min_le_right _ _
  simp only [draw_from_stock, h0]
  rw [pop_to_waste_spec _ _ _ hk]
  simp

theorem draw_recycle (gs : GameState) (dc : Nat) (h : gs.stock = []) (h2 : gs.waste ≠ []) :
    draw_from_stock gs dc =
      (true, { gs with
        stock := gs.waste.reverse.map (fun c => { c with face_up := false })
        waste := []
        moves := gs.moves + 1 }) := by
  have h0 : gs.stock.isEmpty = true := by simp [h]
  have h1 : gs.waste.isEmpty = false := by simp [List.isEmpty_iff, h2]
  simp only [draw_from_stock, h0, h1, recycle_onto_spec, h]
  simp

theorem draw_fail (gs : GameState) (dc : Nat) (h : gs.stock = []) (h2 : gs.waste = []) :
    draw_from_stock gs dc = (false, gs) := by
  simp [draw_from_stock, h, h2]

/-- C4 counterexample: with stock `A♠, 2♠, 3♠` (top of stock `3♠`) and
draw count 3, the draw succeeds but the new waste top is `A♠` — the
stock's top card does *not* become the waste's top card; it becomes the
bottom of the drawn group. -/
theorem c4_counterexample :
    (draw_from_stock cex_draw_state 3).1 = true ∧
    (draw_from_stock cex_draw_state 3).2.waste.getLast? ≠
      cex_draw_state.stock.getLast?.map (fun c => { c with face_up := true }) := by
  decide

/-- C4 (amended): drawing from a non-empty stock moves
`min(drawCount, |stock|)` cards from the stock tail to the waste tail,
each flipped face-up, as one counted action; the pop order makes the
stock's top card the *bottom-most of the newly drawn group*, the `k`-th
card from the top of the stock becomes the waste's new top, and only
with `drawCount = 1` does the stock's top card become the waste's top;
when stock and waste are both empty the draw fails as a no-op. -/
theorem c4_draw_amended :
    (∀ (gs : GameState) (dc : Nat), gs.stock ≠ [] → 1 ≤ dc →
      (draw_from_stock gs dc).1 = true ∧
      (draw_from_stock gs dc).2.stock =
        gs.stock.take (gs.stock.length - min dc gs.stock.length) ∧
      (draw_from_stock gs dc).2.waste =
        gs.waste ++ (gs.stock.drop (gs.stock.length - min dc gs.stock.length)).reverse.map
          (fun c => { c with face_up := true }) ∧
      (draw_from_stock gs dc).2.moves = gs.moves + 1 ∧
      (draw_from_stock gs dc).2.waste.getLast? =
        (gs.stock.drop (gs.stock.length - min dc gs.stock.length)).head?.map
          (fun c => { c with face_up := true }) ∧
      ((draw_from_stock gs dc).2.waste.drop gs.waste.length).head? =
        gs.stock.getLast?.map (fun c => { c with face_up := true }) ∧
      (dc = 1 → (draw_from_stock gs dc).2.waste.getLast? =
        gs.stock.getLast?.map (fun c => { c with face_up := true }))) ∧
    (∀ (gs : GameState) (dc : Nat), gs.stock = [] → gs.waste = [] →
      draw_from_stock gs dc = (false, gs)) := by
  constructor
  · intro gs dc h hdc
    have hrw := draw_nonempty gs dc h
    have hn : 1 ≤ gs.stock.length := List.length_pos.mpr h
    have hk1 : 1 ≤ min dc gs.stock.length := le_min hdc hn
    have hkn : min dc gs.stock.length ≤ gs.stock.length := Nat.min_le_right _ _
    have hdropne : gs.stock.drop (gs.stock.length - min dc gs.stock.length) ≠ [] := by
      intro hc
      have := congrArg List.length hc
      simp only [List.length_drop, List.length_nil] at this
      omega
    have hlast : (gs.stock.drop (gs.stock.length - min dc gs.stock.length)).getLast?
        = gs.stock.getLast? := by
      conv_rhs =>
        rw [← List.take_append_drop (gs.stock.length - min dc gs.stock.length) gs.stock]
      rw [List.getLast?_append_of_ne_nil _ hdropne]
    refine ⟨by rw [hrw], by rw [hrw], by rw [hrw], by rw [hrw], ?_, ?_, ?_⟩
    · rw [hrw]
      simp only []
      rw [List.getLast?_append_of_ne_nil _ (by simpa using hdropne),
        List.getLast?_map, List.getLast?_reverse]
    · rw [hrw]
      simp only []
      rw [List.drop_left, List.head?_map, List.head?_reverse, hlast]
    · intro h1
      subst h1
      rw [hrw]
      simp only []
      rw [List.getLast?_append_of_ne_nil _ (by simpa using hdropne),
        List.getLast?_map, List.getLast?_reverse, List.head?_drop]
      have hm1 : min 1 gs.stock.length = 1 := Nat.min_eq_left hn
      rw [hm1, List.getLast?_eq_getElem?]
  · intro gs dc h h2
    exact draw_fail gs dc h h2

/-- C4 witness: both halves of the amended draw theorem applied at
concrete inputs. -/
theorem c4_draw_amended_witness :
    (cex_draw_state.stock ≠ [] ∧ 1 ≤ 3 ∧ (draw_from_stock cex_draw_state 3).1 = true) ∧
    (empty_state.stock = [] ∧ empty_state.waste = [] ∧
      draw_from_stock empty_state 3 = (false, empty_state)) :=
  ⟨⟨by decide, by decide, (c4_draw_amended.1 cex_draw_state 3 (by decide) (by decide)).1⟩,
   ⟨rfl, rfl, c4_draw_amended.2 empty_state 3 rfl rfl⟩⟩

theorem idsM_reverse (l : List Card) : idsM l.reverse = idsM l := by
  simp [idsM]

theorem idsM_map_face (l : List Card) (b : Bool) :
    idsM (l.map (fun c => { c with face_up := b })) = idsM l := by
  unfold idsM
  rw [List.map_map]
  rfl

theorem drain_loop_spec (dc : Nat) (hdc : 1 ≤ dc) :
    ∀ (fuel : Nat) (gs : GameState), gs.stock.length ≤ fuel →
      (drain_loop dc fuel gs).stock = [] ∧
      idsM (drain_loop dc fuel gs).waste = idsM gs.waste + idsM gs.stock := by
  intro fuel
  induction fuel with
  | zero =>
    intro gs h
    have h0 : gs.stock = [] := List.length_eq_zero.mp (Nat.le_zero.mp h)
    simp [drain_loop, h0, idsM_nil]
  | succ fuel ih =>
    intro gs h
    rcases eq_or_ne gs.stock [] with hs | hs
    · simp [drain_loop, hs, idsM_nil]
    · have h0 : gs.stock.isEmpty = false := by simp [List.isEmpty_iff, hs]
      have hn : 1 ≤ gs.stock.length := List.length_pos.mpr hs
      rw [drain_loop]
      simp only [h0, Bool.false_eq_true, if_false]
      rw [draw_nonempty gs dc hs]
      have hk1 : 1 ≤ min dc gs.stock.length := le_min hdc hn
      have hlen : (gs.stock.take (gs.stock.length - min dc gs.stock.length)).length ≤ fuel := by
        simp only [List.length_take]
        omega
      obtain ⟨h1, h2⟩ := ih { gs with
          stock := gs.stock.take (gs.stock.length - min dc gs.stock.length)
          waste := gs.waste ++ (gs.stock.drop (gs.stock.length - min dc gs.stock.length)).reverse.map
            (fun c => { c with face_up := true })
          moves := gs.moves + 1 } hlen
      refine ⟨h1, ?_⟩
      rw [h2]
      simp only [idsM_append, idsM_map_face, idsM_reverse]
      rw [add_assoc, add_comm (idsM (gs.stock.drop _)) (idsM (gs.stock.take _)),
        ← idsM_append, List.take_append_drop]

/-- C9: with an empty stock and non-empty waste, a draw recycles: all
waste cards return to the stock face-down in reversed order, counted as
one action; and draining the whole stock then recycling restores the
stock to its pre-draw size with an identical card multiset, every card
face-down. -/
theorem c9_recycle_roundtrip :
    (∀ (gs : GameState) (dc : Nat), gs.stock = [] → gs.waste ≠ [] →
      draw_from_stock gs dc =
        (true, { gs with
          stock := gs.waste.reverse.map (fun c => { c with face_up := false })
          waste := []
          moves := gs.moves + 1 })) ∧
    (∀ (gs : GameState) (dc : Nat), 1 ≤ dc → gs.waste = [] →
      (draw_from_stock (drain_stock gs dc) dc).2.stock.length = gs.stock.length ∧
      idsM (draw_from_stock (drain_stock gs dc) dc).2.stock = idsM gs.stock ∧
      ∀ c ∈ (draw_from_stock (drain_stock gs dc) dc).2.stock, c.face_up = false) := by
  constructor
  · intro gs dc h h2
    exact draw_recycle gs dc h h2
  · intro gs dc hdc hw
    obtain ⟨h1, h2⟩ := drain_loop_spec dc hdc gs.stock.length gs (le_refl _)
    rw [hw, idsM_nil, zero_add] at h2
    simp only [drain_stock]
    rcases eq_or_ne (drain_loop dc gs.stock.length gs).waste [] with hwe | hwe
    · have hse : idsM gs.stock = 0 := by rw [← h2, hwe, idsM_nil]
      have hsl : gs.stock.length = 0 := by
        have hcard := congrArg Multiset.card hse
        simpa [idsM_card] using hcard
      rw [draw_fail _ dc h1 hwe]
      refine ⟨?_, ?_, ?_⟩
      · rw [h1]
        simp [hsl]
      · rw [h1, idsM_nil, hse]
      · rw [h1]
        intro c hc
        simp at hc
    · rw [draw_recycle _ dc h1 hwe]
      refine ⟨?_, ?_, ?_⟩
      · simp only [List.length_map, List.length_reverse]
        have hcard := congrArg Multiset.card h2
        simpa [idsM_card] using hcard
      · simp only [idsM_map_face, idsM_reverse]
        exact h2
      · intro c hc
        simp only [List.mem_map] at hc
        obtain ⟨a, _, rfl⟩ := hc
        rfl

/-- C9 witness: the recycle half applied to a one-card waste and the
round-trip half applied to a one-card stock. -/
theorem c9_recycle_roundtrip_witness :
    (recycle_state.stock = [] ∧ recycle_state.waste ≠ [] ∧
      draw_from_stock recycle_state 3 =
        (true, { recycle_state with
          stock := recycle_state.waste.reverse.map (fun c => { c with face_up := false })
          waste := []
          moves := recycle_state.moves + 1 })) ∧
    (1 ≤ 1 ∧ single_stock_state.waste = [] ∧
      (draw_from_stock (drain_stock single_stock_state 1) 1).2.stock.length =
        single_stock_state.stock.length) :=
  ⟨⟨rfl, by decide, c9_recycle_roundtrip.1 recycle_state 3 rfl (by decide)⟩,
   ⟨le_refl 1, rfl, (c9_recycle_roundtrip.2 single_stock_state 1 (le_refl 1) rfl).1⟩⟩

theorem length_dropLast_add_one (l : List Card) (h : l ≠ []) :
    l.dropLast.length + 1 = l.length := by
  have := List.length_pos.mpr h
  simp only [List.length_dropLast]
  omega

theorem flip_if_needed_length (p : List Card) : (flip_if_needed p).length = p.length := by
  unfold flip_if_needed
  split
  · rfl
  · split
    · rfl
    · rename_i c heq _
      have hne : p ≠ [] := by
        intro hc
        rw [hc] at heq
        simp at heq
      simp only [List.length_append, List.length_singleton]
      exact length_dropLast_add_one p hne

theorem sum_set {M : Type} [AddCommMonoid M] :
    ∀ (l : List M) (n : Nat), n < l.length → ∀ x : M,
      (l.set n x).sum + l.getD n 0 = l.sum + x := by
  intro l
  induction l with
  | nil => intro n hn; simp at hn
  | cons a t ih =>
    intro n hn x
    cases n with
    | zero =>
      simp only [List.set_cons_zero, List.sum_cons, List.getD_cons_zero]
      abel
    | succ n =>
      have hn2 : n < t.length := by simpa using hn
      simp only [List.set_cons_succ, List.sum_cons, List.getD_cons_succ]
      rw [add_assoc, ih n hn2 x, ← add_assoc]

theorem getD_map_length (l : List (List Card)) (n : Nat) :
    (l.map List.length).getD n 0 = (l.getD n []).length := by
  induction l generalizing n with
  | nil => simp
  | cons a t ih =>
    cases n with
    | zero => simp
    | succ n => simpa using ih n

theorem getD_ne_nil_lt (l : List (List Card)) (n : Nat) (h : l.getD n [] ≠ []) :
    n < l.length := by
  by_contra hn
  rw [List.getD_eq_default] at h
  · exact h rfl
  · omega

theorem w2f_success_effects (gs : GameState) (h : (move_waste_to_foundation gs).1 = true) :
    (move_waste_to_foundation gs).2.tableaus = gs.tableaus ∧
    (move_waste_to_foundation gs).2.waste.length + 1 = gs.waste.length := by
  revert h
  unfold move_waste_to_foundation
  repeat' (split <;> try simp)
  apply Nat.succ_pred_eq_of_pos
  apply List.length_pos.mpr
  intro hc
  simp_all

theorem t2f_success_effects (gs : GameState) (col : Nat)
    (h : (move_tableau_to_foundation gs col).1 = true) :
    (move_tableau_to_foundation gs col).2.waste = gs.waste ∧
    ((move_tableau_to_foundation gs col).2.tableaus.map List.length).sum + 1 =
      (gs.tableaus.map List.length).sum := by
  revert h
  unfold move_tableau_to_foundation
  repeat' (split <;> try simp)
  rename_i card heq hface hplace
  have hne : gs.tableaus.getD col [] ≠ [] := by
    intro hc
    rw [hc] at heq
    simp at heq
  have hcol : col < gs.tableaus.length := getD_ne_nil_lt _ _ hne
  have hsum := sum_set (gs.tableaus.map List.length) col (by simpa using hcol)
    (flip_if_needed (gs.tableaus.getD col []).dropLast).length
  rw [getD_map_length] at hsum
  have hlen : (flip_if_needed (gs.tableaus.getD col []).dropLast).length + 1 =
      (gs.tableaus.getD col []).length := by
    rw [flip_if_needed_length]
    exact length_dropLast_add_one _ hne
  simp only [List.getD_eq_getElem?_getD] at hsum hlen ⊢
  omega

theorem w2f_measure (gs : GameState) (h : (move_waste_to_foundation gs).1 = true) :
    auto_measure (move_waste_to_foundation gs).2 + 1 = auto_measure gs := by
  obtain ⟨ht, hw⟩ := w2f_success_effects gs h
  unfold auto_measure
  rw [ht]
  omega

theorem t2f_measure (gs : GameState) (col : Nat)
    (h : (move_tableau_to_foundation gs col).1 = true) :
    auto_measure (move_tableau_to_foundation gs col).2 + 1 = auto_measure gs := by
  obtain ⟨hw, ht⟩ := t2f_success_effects gs col h
  unfold auto_measure
  rw [hw]
  omega

theorem auto_pass_cols_props (cols : List Nat) (gs : GameState) :
    ((auto_pass_cols cols gs).1 = 0 → (auto_pass_cols cols gs).2 = gs) ∧
    (auto_pass_cols cols gs).2.moves = gs.moves + (auto_pass_cols cols gs).1 ∧
    auto_measure (auto_pass_cols cols gs).2 + (auto_pass_cols cols gs).1 = auto_measure gs := by
  induction cols generalizing gs with
  | nil => simp [auto_pass_cols]
  | cons c rest ih =>
    obtain ⟨ih1, ih2, ih3⟩ := ih (move_tableau_to_foundation gs c).2
    cases hb : (move_tableau_to_foundation gs c).1 with
    | false =>
      have he : (move_tableau_to_foundation gs c).2 = gs := (t2f_cases gs c).1 hb
      rw [he] at ih1 ih2 ih3
      simp only [auto_pass_cols, hb, Bool.false_eq_true, if_false, zero_add]
      rw [he]
      exact ⟨ih1, ih2, ih3⟩
    | true =>
      have hm := (t2f_cases gs c).2 hb
      have hmeas := t2f_measure gs c hb
      simp only [auto_pass_cols, hb, if_true]
      refine ⟨?_, ?_, ?_⟩
      · intro h0
        omega
      · rw [ih2, hm]
        omega
      · omega

theorem auto_pass_props (gs : GameState) :
    ((auto_pass gs).1 = 0 → (auto_pass gs).2 = gs) ∧
    (auto_pass gs).2.moves = gs.moves + (auto_pass gs).1 ∧
    auto_measure (auto_pass gs).2 + (auto_pass gs).1 = auto_measure gs := by
  obtain ⟨ih1, ih2, ih3⟩ := auto_pass_cols_props (List.range 7) (move_waste_to_foundation gs).2
  cases hb : (move_waste_to_foundation gs).1 with
  | false =>
    have he : (move_waste_to_foundation gs).2 = gs := (w2f_cases gs).1 hb
    rw [he] at ih1 ih2 ih3
    simp only [auto_pass, hb, Bool.false_eq_true, if_false, zero_add]
    rw [he]
    exact ⟨ih1, ih2, ih3⟩
  | true =>
    have hm := (w2f_cases gs).2 hb
    have hmeas := w2f_measure gs hb
    simp only [auto_pass, hb, if_true]
    refine ⟨?_, ?_, ?_⟩
    · intro h0
      omega
    · rw [ih2, hm]
      omega
    · omega

theorem auto_loop_props :
    ∀ (fuel : Nat) (gs : GameState), auto_measure gs < fuel →
      (auto_loop fuel gs).2.moves = gs.moves + (auto_loop fuel gs).1 ∧
      auto_pass (auto_loop fuel gs).2 = (0, (auto_loop fuel gs).2) := by
  intro fuel
  induction fuel with
  | zero => intro gs h; exact absurd h (Nat.not_lt_zero _)
  | succ fuel ih =>
    intro gs h
    obtain ⟨hp0, hpm, hpmeas⟩ := auto_pass_props gs
    cases hc : (auto_pass gs).1 with
    | zero =>
      have he : (auto_pass gs).2 = gs := hp0 hc
      have hpair : auto_pass gs = (0, gs) := by
        rw [Prod.ext_iff]
        exact ⟨hc, he⟩
      constructor
      · simp [auto_loop, hpair]
      · simp only [auto_loop, hpair]
        simp [hpair]
    | succ n =>
      have hne : (auto_pass gs).1 ≠ 0 := by omega
      have hlt : auto_measure (auto_pass gs).2 < fuel := by omega
      obtain ⟨ih1, ih2⟩ := ih (auto_pass gs).2 hlt
      constructor
      · simp only [auto_loop, hc, Nat.succ_ne_zero, if_false]
        rw [hc] at hpm
        omega
      · simp only [auto_loop, hc, Nat.succ_ne_zero, if_false]
        exact ih2

/-- C10: the auto-move sweep repeats waste-to-foundation and per-column
tableau-to-foundation passes until a pass performs no move; it returns
the exact number of successful moves performed (the move counter grows
by exactly the returned count), and calling it again immediately
performs and reports zero moves, leaving the state unchanged. -/
theorem c10_auto_move_idempotent :
    ∀ gs : GameState,
      (auto_move_safe gs).2.moves = gs.moves + (auto_move_safe gs).1 ∧
      auto_move_safe (auto_move_safe gs).2 = (0, (auto_move_safe gs).2) := by
  intro gs
  have hdef : auto_move_safe gs = auto_loop (auto_measure gs + 1) gs := rfl
  obtain ⟨h1, h2⟩ := auto_loop_props (auto_measure gs + 1) gs (Nat.lt_succ_self _)
  have key : ∀ (f : Nat) (gs1 : GameState), auto_pass gs1 = (0, gs1) →
      auto_loop (f + 1) gs1 = (0, gs1) := by
    intro f gs1 hp
    simp [auto_loop, hp]
  have hdef2 : auto_move_safe (auto_loop (auto_measure gs + 1) gs).2
      = auto_loop (auto_measure (auto_loop (auto_measure gs + 1) gs).2 + 1)
          (auto_loop (auto_measure gs + 1) gs).2 := rfl
  constructor
  · rw [hdef]
    exact h1
  · rw [hdef, hdef2]
    exact key _ _ h2

theorem push_undo_getLast (g : Game) :
    (push_undo g).undo_stack.getLast? = some g.state := by
  unfold push_undo
  simp only []
  split
  · rename_i hlen
    cases hS : g.undo_stack with
    | nil =>
      rw [hS] at hlen
      simp at hlen
    | cons a t =>
      simp only [List.cons_append, List.drop_succ_cons, List.drop_zero]
      rw [List.getLast?_concat, clone_eq]
  · simp only []
    rw [List.getLast?_concat, clone_eq]

theorem push_undo_state (g : Game) : (push_undo g).state = g.state := by
  unfold push_undo
  simp only []
  split <;> rfl

/-- C6: pushing a snapshot of the state, applying any successful move,
then undoing restores a state structurally equal to the original in all
piles, face-up flags, the move counter, the start time and the win
flag; the snapshot taken is itself structurally equal to the state (the
clone rebuilds every card, so under the value semantics of the
embedding no sharing with the live state is possible). -/
theorem c6_undo_left_inverse :
    ∀ (g : Game) (m : MoveOp),
      (apply_move m (push_undo g).state).1 = true →
      (undo { push_undo g with state := (apply_move m (push_undo g).state).2 }).state = g.state ∧
      g.state.clone = g.state := by
  intro g m _
  refine ⟨?_, clone_eq g.state⟩
  unfold undo
  simp only []
  rw [show ({ push_undo g with
      state := (apply_move m (push_undo g).state).2 } : Game).undo_stack
    = (push_undo g).undo_stack from rfl]
  rw [push_undo_getLast g]

/-- C6 witness: drawing the single stock card succeeds and undo
restores the original state. -/
theorem c6_undo_left_inverse_witness :
    (apply_move (MoveOp.draw 1) (push_undo undo_witness_game).state).1 = true ∧
    (undo { push_undo undo_witness_game with
      state := (apply_move (MoveOp.draw 1) (push_undo undo_witness_game).state).2 }).state =
      undo_witness_game.state :=
  ⟨by decide, (c6_undo_left_inverse undo_witness_game (MoveOp.draw 1) (by decide)).1⟩

theorem push_undo_sel (g : Game) : (push_undo g).sel = g.sel := by
  unfold push_undo
  simp only []
  split <;> rfl

theorem auto_move_zero (gs : GameState) (h : (auto_move_safe gs).1 = 0) :
    (auto_move_safe gs).2 = gs := by
  have hdef : auto_move_safe gs = auto_loop (auto_measure gs + 1) gs := rfl
  rw [hdef] at h ⊢
  by_cases hc : (auto_pass gs).1 = 0
  · have he := (auto_pass_props gs).1 hc
    simp [auto_loop, hc, he]
  · simp [auto_loop, hc] at h

theorem attempt_place_fail (gs : GameState) (src : Sel) (cursor : Zone) (mg : Bool × GameState)
    (h : attempt_place gs src cursor = some mg) (hb : mg.1 = false) : mg.2 = gs := by
  rcases src with _ | fidx | ⟨s_col, depth⟩ <;> rcases cursor with _ | _ | fi | ti <;>
    first
      | (simp only [attempt_place, Option.some.injEq] at h
         subst h
         first
           | rfl
           | exact (w2f_cases gs).1 hb
           | exact (w2t_cases gs ti).1 hb
           | exact (t2f_cases gs s_col).1 hb
           | exact (t2t_cases gs s_col ti depth).1 hb)
      | (simp only [attempt_place] at h
         cases hL : (gs.foundations.getD fidx []).getLast? with
         | none =>
           rw [hL] at h
           simp at h
         | some card =>
           rw [hL] at h
           simp only [] at h
           split at h <;> rw [Option.some.injEq] at h <;> subst h
           · simp at hb
           · rfl)

/-- C7 counterexample: with stock and waste both empty, the draw-key
path pushes a speculative snapshot, the draw fails as a no-op, and the
snapshot is *not* popped: the undo stack grows by one entry. -/
theorem c7_counterexample :
    (draw_from_stock empty_state 3).1 = false ∧
    (press_draw { state := empty_state } 3 false).undo_stack ≠ [] ∧
    (press_draw { state := empty_state } 3 false).undo_stack.length =
      ({ state := empty_state } : Game).undo_stack.length + 1 := by
  decide

/-- C7 (amended): only the select-and-place placement path rolls back:
when the attempted placement returns failure, the speculative snapshot
is popped, restoring the stack and state to their pre-attempt values
(provided the stack held fewer than 200 entries; at capacity the push
evicts the oldest snapshot, which the rollback does not restore), and
the selection is cleared.  Placing from a selected foundation that is
empty instead raises an uncaught IndexError at the unguarded
`foundations[src[1]][-1]`, escaping with the speculative snapshot still
pushed, the state unchanged and the selection retained.  The
stock-select draw, the draw key and the auto-move key push the
snapshot unconditionally and retain it even when the attempt moves
nothing. -/
theorem c7_rollback_amended :
    (∀ (g : Game) (src : Sel) (cursor : Zone) (dc : Nat),
      g.sel = some src →
      (attempt_place g.state src cursor).map Prod.fst = some false →
      g.undo_stack.length < 200 →
      select_or_move g cursor dc =
        StepResult.ok { state := g.state, undo_stack := g.undo_stack, sel := none }) ∧
    (∀ (g : Game) (fidx idx dc : Nat),
      g.sel = some (Sel.foundation fidx) →
      g.state.foundations.getD fidx [] = [] →
      select_or_move g (Zone.tableau idx) dc = StepResult.crash (push_undo g) ∧
      (push_undo g).state = g.state ∧ (push_undo g).sel = g.sel ∧
      (g.undo_stack.length < 200 →
        (push_undo g).undo_stack = g.undo_stack ++ [g.state])) ∧
    (∀ (g : Game) (dc : Nat),
      g.sel = none →
      (draw_from_stock g.state dc).1 = false →
      select_or_move g Zone.stock dc =
        StepResult.ok
          { state := g.state, undo_stack := (push_undo g).undo_stack, sel := g.sel }) ∧
    (∀ (g : Game) (dc : Nat), (draw_from_stock g.state dc).1 = false →
      (press_draw g dc false).undo_stack = (push_undo g).undo_stack ∧
      (press_draw g dc false).state = g.state) ∧
    (∀ g : Game, (auto_move_safe g.state).1 = 0 →
      (press_auto g).undo_stack = (push_undo g).undo_stack ∧
      (press_auto g).state = g.state) := by
  have hcap : ∀ g : Game, g.undo_stack.length < 200 →
      push_undo g = { g with undo_stack := g.undo_stack ++ [g.state] } := by
    intro g hlen
    unfold push_undo
    have hno : ¬ 200 < (g.undo_stack ++ [g.state.clone]).length := by
      simp only [List.length_append, List.length_cons, List.length_nil]
      omega
    rw [if_neg hno, clone_eq]
  refine ⟨?_, ?_, ?_, ?_, ?_⟩
  · intro g src cursor dc hsel hfail hlen
    cases hap : attempt_place g.state src cursor with
    | none =>
      rw [hap] at hfail
      simp at hfail
    | some mg =>
      rw [hap] at hfail
      have hb : mg.1 = false := by
        simpa using hfail
      have hnoop : mg.2 = g.state := attempt_place_fail g.state src cursor mg hap hb
      unfold select_or_move
      rw [hsel]
      simp only [hcap g hlen, hap, hb, hnoop]
      simp [List.getLast?_concat, List.dropLast_concat]
  · intro g fidx idx dc hsel hempty
    have hap : attempt_place g.state (Sel.foundation fidx) (Zone.tableau idx) = none := by
      simp only [attempt_place]
      rw [hempty]
      rfl
    refine ⟨?_, push_undo_state g, push_undo_sel g, fun hlen => ?_⟩
    · unfold select_or_move
      rw [hsel]
      simp only [push_undo_state, hap]
    · rw [hcap g hlen]
  · intro g dc hsel hfail
    have hdraw : (draw_from_stock g.state dc).2 = g.state := (draw_cases g.state dc).1 hfail
    unfold select_or_move
    rw [hsel]
    simp only [push_undo_state, hdraw, push_undo_sel]
    rw [hsel]
  · intro g dc hfail
    have hdraw : (draw_from_stock g.state dc).2 = g.state := (draw_cases g.state dc).1 hfail
    refine ⟨rfl, ?_⟩
    show (draw_from_stock (push_undo g).state dc).2 = g.state
    rw [push_undo_state]
    exact hdraw
  · intro g h0
    unfold press_auto
    simp only [push_undo_state]
    exact ⟨trivial, auto_move_zero g.state h0⟩

theorem save_score_state (now dc : Nat) (s : LoopSession) :
    (save_score_if_win now dc s).state = s.state := by
  unfold save_score_if_win
  split <;> rfl

theorem save_score_len (now dc : Nat) (s : LoopSession) (h : s.state.won = true) :
    (save_score_if_win now dc s).best_times.length = min 20 (s.best_times.length + 1) := by
  unfold save_score_if_win
  rw [if_pos h]
  simp [List.length_take, List.length_append]

theorem check_win_won (gs : GameState) (h : (check_win gs).1 = true) :
    (check_win gs).2.won = true := by
  revert h
  unfold check_win
  split <;> simp

theorem win_frame_bt (now dc : Nat) (s : LoopSession) (h : (check_win s.state).1 = true) :
    (win_frame now dc s).best_times.length = min 20 (s.best_times.length + 1) := by
  unfold win_frame
  simp only []
  rw [if_pos h]
  exact save_score_len now dc _ (check_win_won s.state h)

theorem win_frame_state (now dc : Nat) (s : LoopSession) :
    (win_frame now dc s).state = (check_win s.state).2 := by
  unfold win_frame
  simp only []
  split
  · rw [save_score_state]
  · rfl

/-- C3: with all 52 cards on the foundations the win check sets `won`;
but the finished-game summary is recorded again on *every* subsequent
frame of the main loop: two win-check frames from a fresh win append
two leaderboard entries instead of one. -/
theorem c3_win_save_every_frame :
    (check_win won_ready_state).1 = true ∧
    (check_win won_ready_state).2.won = true ∧
    (win_frame 5 3 (win_frame 5 3 { state := won_ready_state })).best_times.length = 2 := by
  refine ⟨by decide, by decide, ?_⟩
  have h1 : (check_win won_ready_state).1 = true := by decide
  have hs : (win_frame 5 3 ({ state := won_ready_state } : LoopSession)).state =
      (check_win won_ready_state).2 := win_frame_state 5 3 _
  have h2 : (check_win (win_frame 5 3 ({ state := won_ready_state } : LoopSession)).state).1
      = true := by
    rw [hs]
    decide
  rw [win_frame_bt 5 3 _ h2, win_frame_bt 5 3 _ h1]
  rfl

/-- C2: evaluating tableau-to-tableau at depth 1 from the two-card
face-up run `5♥, 4♠` (bottom to top) onto a `6♠` top: the code slices
`run[:depth]`, detaching the *bottom* card `5♥` out from under `4♠` and
moving it, although the topmost card `4♠` — which the claim (and the
source's own comment, `depth counts from top`) designates — may not be
placed on `6♠` at all. -/
theorem c2_depth_slices_bottom_of_run :
    (move_tableau_to_tableau cex_tt_state 0 1 1).1 = true ∧
    (move_tableau_to_tableau cex_tt_state 0 1 1).2.tableaus.getD 0 [] = [⟨4, 0, true⟩] ∧
    (move_tableau_to_tableau cex_tt_state 0 1 1).2.tableaus.getD 1 [] =
      [⟨6, 0, true⟩, ⟨5, 1, true⟩] ∧
    can_place_on_tableau ⟨4, 0, true⟩ (some ⟨6, 0, true⟩) = false := by
  decide

theorem takeWhile_rev_split (d u : List Card) (hd : ∀ c ∈ d, c.face_up = false)
    (hu : ∀ c ∈ u, c.face_up = true) :
    (d ++ u).reverse.takeWhile (fun c => c.face_up) = u.reverse := by
  rw [List.reverse_append]
  rw [List.takeWhile_append_of_pos (by
    intro a ha
    exact hu a (by simpa using ha))]
  cases hdd : d.reverse with
  | nil => simp
  | cons a t =>
    have ha : a ∈ d := by
      have h1 : a ∈ d.reverse := by
        rw [hdd]
        exact List.mem_cons_self a t
      simpa using h1
    rw [List.takeWhile_cons_of_neg]
    · simp
    · simp [hd a ha]

theorem faceUpRun_split (d u : List Card) (hd : ∀ c ∈ d, c.face_up = false)
    (hu : ∀ c ∈ u, c.face_up = true) : faceUpRun (d ++ u) = u := by
  unfold faceUpRun
  rw [takeWhile_rev_split d u hd hu, List.reverse_reverse]

theorem first_faceup_split (d u : List Card) (hd : ∀ c ∈ d, c.face_up = false)
    (hu : ∀ c ∈ u, c.face_up = true) : first_faceup_idx (d ++ u) = d.length := by
  unfold first_faceup_idx
  rw [takeWhile_rev_split d u hd hu]
  simp

theorem tableau_target_down (d : List Card) (hd : ∀ c ∈ d, c.face_up = false) :
    tableau_target d = none := by
  unfold tableau_target
  cases hl : d.getLast? with
  | none => rfl
  | some t =>
    have hm : t ∈ d := List.mem_of_mem_getLast? hl
    simp [hd t hm]

theorem tableau_target_split (d u : List Card) (hu : ∀ c ∈ u, c.face_up = true)
    (h : u ≠ []) : tableau_target (d ++ u) = some (u.getLast h) := by
  unfold tableau_target
  rw [List.getLast?_append_of_ne_nil _ h, List.getLast?_eq_getLast _ h]
  have hm : u.getLast h ∈ u := List.getLast_mem h
  simp [hu _ hm]

theorem can_place_foundation_none (c : Card) (h : can_place_on_foundation c none = true) :
    c.value = 1 := by
  simpa [can_place_on_foundation] using h

theorem can_place_foundation_some (c t : Card)
    (h : can_place_on_foundation c (some t) = true) :
    c.suit = t.suit ∧ c.value = t.value + 1 := by
  simpa [can_place_on_foundation] using h

theorem can_place_tableau_none (c : Card) (h : can_place_on_tableau c none = true) :
    c.value = 13 := by
  simpa [can_place_on_tableau] using h

theorem can_place_tableau_some (c t : Card)
    (h : can_place_on_tableau c (some t) = true) : stacked t c := by
  simp only [can_place_on_tableau] at h
  by_cases hcol : c.color_red = t.color_red
  · simp [hcol] at h
  · rw [if_neg (by simp [hcol])] at h
    exact ⟨by simpa using h, by simpa using hcol⟩

theorem foundationOk_nil : foundationOk [] := by
  constructor
  · intro i h
    simp at h
  · intro c hc
    simp at hc

theorem getLast?_eq_none_nil (p : List Card) (h : p.getLast? = none) : p = [] := by
  cases p with
  | nil => rfl
  | cons a t => simp at h

theorem foundationOk_append (p : List Card) (c : Card) (hok : foundationOk p)
    (hcan : can_place_on_foundation c p.getLast? = true) : foundationOk (p ++ [c]) := by
  obtain ⟨hval, hsuit⟩ := hok
  cases hl : p.getLast? with
  | none =>
    have hp : p = [] := getLast?_eq_none_nil p hl
    subst hp
    have hc1 := can_place_foundation_none c (by rw [← hl]; exact hcan)
    constructor
    · intro i h
      have hi : i = 0 := by simpa using h
      subst hi
      simpa using hc1
    · intro x hx y hy
      simp at hx hy
      rw [hx, hy]
  | some top =>
    have htop_mem : top ∈ p := List.mem_of_mem_getLast? hl
    have hp_ne : p ≠ [] := by
      intro h
      rw [h] at hl
      simp at hl
    obtain ⟨hsuit_eq, hval_eq⟩ := can_place_foundation_some c top (by rw [← hl]; exact hcan)
    have hlen : 0 < p.length := List.length_pos.mpr hp_ne
    have htop_val : top.value = (p.length : Int) := by
      rw [List.getLast?_eq_getElem?] at hl
      have h2 : p.length - 1 < p.length := by omega
      rw [List.getElem?_eq_getElem h2] at hl
      have h3 : p[p.length - 1] = top := by
        injection hl
      have h4 := hval (p.length - 1) h2
      rw [List.get_eq_getElem] at h4
      rw [h3] at h4
      rw [h4]
      omega
    constructor
    · intro i h
      rw [List.get_eq_getElem]
      have hiub : i < p.length + 1 := by simpa using h
      rcases Nat.lt_or_ge i p.length with hi | hi
      · rw [List.getElem_append_left hi]
        have h5 := hval i hi
        rw [List.get_eq_getElem] at h5
        exact h5
      · have hieq : i = p.length := by omega
        subst hieq
        rw [List.getElem_append_right (le_refl _)]
        simp only [Nat.sub_self, List.getElem_singleton]
        rw [hval_eq, htop_val]
    · intro x hx y hy
      rw [List.mem_append, List.mem_singleton] at hx hy
      rcases hx with hx | hx <;> rcases hy with hy | hy
      · exact hsuit x hx y hy
      · rw [hy, hsuit_eq]
        exact hsuit x hx top htop_mem
      · rw [hx, hsuit_eq]
        exact (hsuit y hy top htop_mem).symm
      · rw [hx, hy]

theorem foundationOk_head (p : List Card) (hok : foundationOk p) (hp : p ≠ []) :
    ∀ c0 ∈ p.head?, c0.value = 1 ∧ ∀ c ∈ p, c.suit = c0.suit := by
  intro c0 hc0
  have h0 : 0 < p.length := List.length_pos.mpr hp
  rw [List.head?_eq_getElem?, List.getElem?_eq_getElem h0] at hc0
  have hc0e : p[0] = c0 := Option.mem_some_iff.mp hc0
  constructor
  · have h1 := hok.1 0 h0
    rw [List.get_eq_getElem, hc0e] at h1
    simpa using h1
  · intro c hc
    have := hok.2 c hc p[0] (List.getElem_mem h0)
    rw [hc0e] at this
    exact this

theorem mem_set_cases {α : Type} (l : List α) (n : Nat) (q : α) :
    ∀ x ∈ l.set n q, x = q ∨ x ∈ l := by
  induction l generalizing n with
  | nil =>
    intro x hx
    simp at hx
  | cons a t ih =>
    intro x hx
    cases n with
    | zero =>
      simp only [List.set_cons_zero, List.mem_cons] at hx
      rcases hx with hx | hx
      · exact Or.inl hx
      · exact Or.inr (List.mem_cons_of_mem a hx)
    | succ n =>
      simp only [List.set_cons_succ, List.mem_cons] at hx
      rcases hx with hx | hx
      · exact Or.inr (by rw [hx]; exact List.mem_cons_self a t)
      · rcases ih n x hx with h | h
        · exact Or.inl h
        · exact Or.inr (List.mem_cons_of_mem a h)

theorem w2f_success_form (gs : GameState) (h : (move_waste_to_foundation gs).1 = true) :
    ∃ card s, gs.waste.getLast? = some card ∧ s < 4 ∧
      foundation_accepts card (gs.foundations.getD s []) = true ∧
      (move_waste_to_foundation gs).2 = { gs with
        waste := gs.waste.dropLast
        foundations := gs.foundations.set s (gs.foundations.getD s [] ++ [card])
        moves := gs.moves + 1 } := by
  cases hw : gs.waste.getLast? with
  | none =>
    unfold move_waste_to_foundation at h
    rw [hw] at h
    simp only [] at h
    simp at h
  | some card =>
    have hh : move_waste_to_foundation gs =
        (match (List.range 4).find?
            (fun s => foundation_accepts card (gs.foundations.getD s [])) with
         | none => (false, gs)
         | some s =>
           (true, { gs with
             waste := gs.waste.dropLast
             foundations := gs.foundations.set s (gs.foundations.getD s [] ++ [card])
             moves := gs.moves + 1 })) := by
      unfold move_waste_to_foundation
      rw [hw]
    cases hf : (List.range 4).find?
        (fun s => foundation_accepts card (gs.foundations.getD s [])) with
    | none =>
      rw [hh, hf] at h
      simp at h
    | some s =>
      rw [hf] at hh
      refine ⟨card, s, rfl, ?_, ?_, ?_⟩
      · have hmem := List.mem_of_find?_eq_some hf
        exact List.mem_range.mp hmem
      · have hp := List.find?_some hf
        simpa using hp
      · rw [hh]

theorem w2t_success_form (gs : GameState) (col : Nat)
    (h : (move_waste_to_tableau gs col).1 = true) :
    ∃ card, gs.waste.getLast? = some card ∧
      can_place_on_tableau card (tableau_target (gs.tableaus.getD col [])) = true ∧
      (move_waste_to_tableau gs col).2 = { gs with
        waste := gs.waste.dropLast
        tableaus := gs.tableaus.set col (gs.tableaus.getD col [] ++ [card])
        moves := gs.moves + 1 } := by
  cases hw : gs.waste.getLast? with
  | none =>
    unfold move_waste_to_tableau at h
    rw [hw] at h
    simp only [] at h
    simp at h
  | some card =>
    have hh : move_waste_to_tableau gs col =
        (if can_place_on_tableau card (tableau_target (gs.tableaus.getD col [])) then
          (true, { gs with
            waste := gs.waste.dropLast
            tableaus := gs.tableaus.set col (gs.tableaus.getD col [] ++ [card])
            moves := gs.moves + 1 })
         else (false, gs)) := by
      unfold move_waste_to_tableau
      rw [hw]
    by_cases hc : can_place_on_tableau card (tableau_target (gs.tableaus.getD col [])) = true
    · rw [if_pos hc] at hh
      exact ⟨card, rfl, hc, by rw [hh]⟩
    · rw [if_neg hc] at hh
      rw [hh] at h
      simp at h

theorem t2f_success_form (gs : GameState) (col : Nat)
    (h : (move_tableau_to_foundation gs col).1 = true) :
    ∃ card, (gs.tableaus.getD col []).getLast? = some card ∧ card.face_up = true ∧
      can_place_on_foundation card (gs.foundations.getD card.suit []).getLast? = true ∧
      (move_tableau_to_foundation gs col).2 = { gs with
        foundations := gs.foundations.set card.suit (gs.foundations.getD card.suit [] ++ [card])
        tableaus := gs.tableaus.set col (flip_if_needed (gs.tableaus.getD col []).dropLast)
        moves := gs.moves + 1 } := by
  cases hw : (gs.tableaus.getD col []).getLast? with
  | none =>
    unfold move_tableau_to_foundation at h
    rw [hw] at h
    simp only [] at h
    simp at h
  | some card =>
    have hh : move_tableau_to_foundation gs col =
        (if card.face_up = false then (false, gs)
         else if can_place_on_foundation card (gs.foundations.getD card.suit []).getLast? then
           (true, { gs with
             foundations := gs.foundations.set card.suit
               (gs.foundations.getD card.suit [] ++ [card])
             tableaus := gs.tableaus.set col (flip_if_needed (gs.tableaus.getD col []).dropLast)
             moves := gs.moves + 1 })
         else (false, gs)) := by
      unfold move_tableau_to_foundation
      rw [hw]
    cases hup : card.face_up with
    | false =>
      rw [hup] at hh
      simp only [if_pos] at hh
      rw [hh] at h
      simp at h
    | true =>
      rw [hup] at hh
      simp only [Bool.true_eq_false, if_false] at hh
      by_cases hc : can_place_on_foundation card
          (gs.foundations.getD card.suit []).getLast? = true
      · rw [if_pos hc] at hh
        exact ⟨card, rfl, hup, hc, by rw [hh]⟩
      · rw [if_neg hc] at hh
        rw [hh] at h
        simp at h

theorem t2t_eq_form (gs : GameState) (src dst depth : Nat)
    (hbeq : (src == dst) = false)
    (hem : (gs.tableaus.getD src []).isEmpty = false)
    (h3 : ¬ (gs.tableaus.getD src []).length ≤ first_faceup_idx (gs.tableaus.getD src []))
    (hg : (decide (depth < 1) ||
      decide (((gs.tableaus.getD src []).drop
        (first_faceup_idx (gs.tableaus.getD src []))).length < depth)) = false) :
    move_tableau_to_tableau gs src dst depth =
      (match (((gs.tableaus.getD src []).drop
          (first_faceup_idx (gs.tableaus.getD src []))).take depth).head? with
       | none => (false, gs)
       | some moving_first =>
         if can_place_on_tableau moving_first (tableau_target (gs.tableaus.getD dst [])) then
           (true, { gs with
             tableaus := (gs.tableaus.set dst (gs.tableaus.getD dst [] ++
                 ((gs.tableaus.getD src []).drop
                   (first_faceup_idx (gs.tableaus.getD src []))).take depth)).set src
               (flip_if_needed
                 ((gs.tableaus.getD src []).take (first_faceup_idx (gs.tableaus.getD src [])) ++
                  (gs.tableaus.getD src []).drop
                    (first_faceup_idx (gs.tableaus.getD src []) + depth)))
             moves := gs.moves + 1 })
         else (false, gs)) := by
  unfold move_tableau_to_tableau
  rw [hbeq]
  simp only [Bool.false_eq_true, if_false]
  rw [hem]
  simp only [Bool.false_eq_true, if_false]
  rw [if_neg h3, hg]
  simp only [Bool.false_eq_true, if_false]

theorem t2t_success_form (gs : GameState) (src dst depth : Nat)
    (h : (move_tableau_to_tableau gs src dst depth).1 = true) :
    src ≠ dst ∧ gs.tableaus.getD src [] ≠ [] ∧
    first_faceup_idx (gs.tableaus.getD src []) < (gs.tableaus.getD src []).length ∧
    1 ≤ depth ∧
    depth ≤ ((gs.tableaus.getD src []).drop
      (first_faceup_idx (gs.tableaus.getD src []))).length ∧
    (∃ m1, (((gs.tableaus.getD src []).drop
        (first_faceup_idx (gs.tableaus.getD src []))).take depth).head? = some m1 ∧
      can_place_on_tableau m1 (tableau_target (gs.tableaus.getD dst [])) = true) ∧
    (move_tableau_to_tableau gs src dst depth).2 = { gs with
      tableaus := (gs.tableaus.set dst (gs.tableaus.getD dst [] ++
          ((gs.tableaus.getD src []).drop
            (first_faceup_idx (gs.tableaus.getD src []))).take depth)).set src
        (flip_if_needed
          ((gs.tableaus.getD src []).take (first_faceup_idx (gs.tableaus.getD src [])) ++
           (gs.tableaus.getD src []).drop (first_faceup_idx (gs.tableaus.getD src []) + depth)))
      moves := gs.moves + 1 } := by
  by_cases h1 : src = dst
  · simp [move_tableau_to_tableau, h1] at h
  have hbeq : (src == dst) = false := by simp [h1]
  by_cases h2 : gs.tableaus.getD src [] = []
  · have h2n : gs.tableaus[src]?.getD [] = [] := by
      rw [← List.getD_eq_getElem?_getD]
      exact h2
    simp [move_tableau_to_tableau, hbeq, h2n] at h
  have hem : (gs.tableaus.getD src []).isEmpty = false := by
    rw [Bool.eq_false_iff]
    intro hemt
    exact h2 (List.isEmpty_iff.mp hemt)
  by_cases h3 : (gs.tableaus.getD src []).length ≤ first_faceup_idx (gs.tableaus.getD src [])
  · unfold move_tableau_to_tableau at h
    rw [hbeq] at h
    simp only [Bool.false_eq_true, if_false] at h
    rw [hem] at h
    simp only [Bool.false_eq_true, if_false] at h
    rw [if_pos h3] at h
    simp at h
  by_cases h4 : depth < 1 ∨
      ((gs.tableaus.getD src []).drop (first_faceup_idx (gs.tableaus.getD src []))).length < depth
  · exfalso
    have hg : (decide (depth < 1) ||
        decide (((gs.tableaus.getD src []).drop
          (first_faceup_idx (gs.tableaus.getD src []))).length < depth)) = true := by
      rcases h4 with h4 | h4
      · rw [decide_eq_true h4]
        rfl
      · rw [decide_eq_true h4, Bool.or_true]
    unfold move_tableau_to_tableau at h
    rw [hbeq] at h
    simp only [Bool.false_eq_true, if_false] at h
    rw [hem] at h
    simp only [Bool.false_eq_true, if_false] at h
    rw [if_neg h3, hg] at h
    simp at h
  push_neg at h4
  have hg : (decide (depth < 1) ||
      decide (((gs.tableaus.getD src []).drop
        (first_faceup_idx (gs.tableaus.getD src []))).length < depth)) = false := by
    rw [decide_eq_false (Nat.not_lt.mpr h4.1), decide_eq_false (Nat.not_lt.mpr h4.2)]
    rfl
  have hh := t2t_eq_form gs src dst depth hbeq hem h3 hg
  cases hhd : (((gs.tableaus.getD src []).drop
      (first_faceup_idx (gs.tableaus.getD src []))).take depth).head? with
  | none =>
    rw [hh, hhd] at h
    simp at h
  | some m1 =>
    have hh2 : move_tableau_to_tableau gs src dst depth =
        (if can_place_on_tableau m1 (tableau_target (gs.tableaus.getD dst [])) then
          (true, { gs with
            tableaus := (gs.tableaus.set dst (gs.tableaus.getD dst [] ++
                ((gs.tableaus.getD src []).drop
                  (first_faceup_idx (gs.tableaus.getD src []))).take depth)).set src
              (flip_if_needed
                ((gs.tableaus.getD src []).take (first_faceup_idx (gs.tableaus.getD src [])) ++
                 (gs.tableaus.getD src []).drop
                   (first_faceup_idx (gs.tableaus.getD src []) + depth)))
            moves := gs.moves + 1 })
         else (false, gs)) := by
      rw [hh, hhd]
    by_cases hc : can_place_on_tableau m1 (tableau_target (gs.tableaus.getD dst [])) = true
    · rw [if_pos hc] at hh2
      exact ⟨h1, h2, by omega, h4.1, h4.2, ⟨m1, rfl, hc⟩, by rw [hh2]⟩
    · rw [if_neg hc] at hh2
      rw [hh2] at h
      simp at h

theorem place_on_tableau_ok (d u ms : List Card)
    (hd : ∀ c ∈ d, c.face_up = false) (hu : ∀ c ∈ u, c.face_up = true)
    (hrun : List.Chain' stacked u) (hms_up : ∀ c ∈ ms, c.face_up = true)
    (hms_chain : List.Chain' stacked ms) (m1 : Card) (hhead : ms.head? = some m1)
    (hcan : can_place_on_tableau m1 (tableau_target (d ++ u)) = true) :
    SplitOk ((d ++ u) ++ ms) ∧ List.Chain' stacked (faceUpRun ((d ++ u) ++ ms)) := by
  have hums : ∀ c ∈ u ++ ms, c.face_up = true := by
    intro c hc
    rcases List.mem_append.mp hc with h | h
    · exact hu c h
    · exact hms_up c h
  rcases eq_or_ne u [] with hu0 | hu0
  · subst hu0
    rw [List.append_nil] at hcan ⊢
    constructor
    · exact ⟨d, ms, rfl, hd, hms_up⟩
    · rw [faceUpRun_split d ms hd hms_up]
      exact hms_chain
  · have htgt := tableau_target_split d u hu hu0
    rw [htgt] at hcan
    have hst : stacked (u.getLast hu0) m1 := can_place_tableau_some m1 _ hcan
    constructor
    · exact ⟨d, u ++ ms, by rw [List.append_assoc], hd, hums⟩
    · rw [List.append_assoc, faceUpRun_split d (u ++ ms) hd hums]
      rw [List.chain'_append]
      refine ⟨hrun, hms_chain, ?_⟩
      intro x hx y hy
      rw [List.getLast?_eq_getLast _ hu0] at hx
      rw [hhead] at hy
      have hx2 : u.getLast hu0 = x := Option.mem_some_iff.mp hx
      have hy2 : m1 = y := Option.mem_some_iff.mp hy
      rw [← hx2, ← hy2]
      exact hst

theorem shrink_tableau_ok (d u2 : List Card)
    (hd : ∀ c ∈ d, c.face_up = false) (hu : ∀ c ∈ u2, c.face_up = true)
    (hchain : List.Chain' stacked u2) :
    SplitOk (flip_if_needed (d ++ u2)) ∧
    List.Chain' stacked (faceUpRun (flip_if_needed (d ++ u2))) := by
  rcases eq_or_ne u2 [] with hu0 | hu0
  · subst hu0
    rw [List.append_nil]
    rcases eq_or_ne d [] with hd0 | hd0
    · subst hd0
      refine ⟨⟨[], [], rfl, by simp, by simp⟩, ?_⟩
      simp [flip_if_needed, faceUpRun]
    · have hfl : flip_if_needed d
          = d.dropLast ++ [{ d.getLast hd0 with face_up := true }] := by
        unfold flip_if_needed
        rw [List.getLast?_eq_getLast _ hd0]
        simp only []
        rw [hd _ (List.getLast_mem hd0)]
        simp
      rw [hfl]
      have hd2 : ∀ c ∈ d.dropLast, c.face_up = false :=
        fun c hc => hd c (List.mem_of_mem_dropLast hc)
      have hu2 : ∀ c ∈ [{ d.getLast hd0 with face_up := true }], c.face_up = true := by
        simp
      refine ⟨⟨d.dropLast, _, rfl, hd2, hu2⟩, ?_⟩
      rw [faceUpRun_split _ _ hd2 hu2]
      exact List.chain'_singleton _
  · have hfl : flip_if_needed (d ++ u2) = d ++ u2 := by
      unfold flip_if_needed
      rw [List.getLast?_append_of_ne_nil _ hu0, List.getLast?_eq_getLast _ hu0]
      simp only []
      rw [hu _ (List.getLast_mem hu0)]
      simp
    rw [hfl]
    refine ⟨⟨d, u2, rfl, hd, hu⟩, ?_⟩
    rw [faceUpRun_split d u2 hd hu]
    exact hchain

theorem idsM_flip_if_needed (p : List Card) : idsM (flip_if_needed p) = idsM p := by
  unfold flip_if_needed
  cases hl : p.getLast? with
  | none => rfl
  | some c =>
    simp only []
    by_cases hf : c.face_up
    · rw [if_pos hf]
    · rw [if_neg hf]
      have hp : p ≠ [] := by
        intro h
        rw [h] at hl
        simp at hl
      conv_rhs => rw [← List.dropLast_append_getLast hp]
      rw [idsM_append, idsM_append]
      congr 1
      have hce : p.getLast hp = c := by
        rw [List.getLast?_eq_getLast _ hp] at hl
        exact Option.some_inj.mp hl
      rw [hce]
      rfl

theorem getD_map_idsM (l : List (List Card)) (n : Nat) :
    (l.map idsM).getD n 0 = idsM (l.getD n []) := by
  induction l generalizing n with
  | nil => simp [idsM_nil]
  | cons a t ih =>
    cases n with
    | zero => simp
    | succ n => simpa using ih n

theorem mem_idsM (c : Card) (l : List Card) (h : c ∈ l) : idOf c ∈ idsM l := by
  unfold idsM
  rw [Multiset.mem_coe]
  exact List.mem_map_of_mem idOf h

theorem idsM_le_sum (l : List (List Card)) (n : Nat) (h : n < l.length) :
    idsM (l.getD n []) ≤ (l.map idsM).sum := by
  induction l generalizing n with
  | nil => simp at h
  | cons a t ih =>
    cases n with
    | zero =>
      simp only [List.getD_cons_zero, List.map_cons, List.sum_cons]
      exact Multiset.le_add_right _ _
    | succ n =>
      simp only [List.getD_cons_succ, List.map_cons, List.sum_cons]
      exact (ih n (by simpa using h)).trans (Multiset.le_add_left _ _)

theorem two_getD_le_sum (l : List (List Card)) (i j : Nat) (hij : i < j) (hj : j < l.length) :
    idsM (l.getD i []) + idsM (l.getD j []) ≤ (l.map idsM).sum := by
  induction l generalizing i j with
  | nil => simp at hj
  | cons a t ih =>
    cases i with
    | zero =>
      cases j with
      | zero => exact absurd hij (lt_irrefl 0)
      | succ j =>
        simp only [List.getD_cons_zero, List.getD_cons_succ, List.map_cons, List.sum_cons]
        exact add_le_add_left (idsM_le_sum t j (by simpa using hj)) _
    | succ i =>
      cases j with
      | zero => omega
      | succ j =>
        simp only [List.getD_cons_succ, List.map_cons, List.sum_cons]
        exact (ih i j (by omega) (by simpa using hj)).trans (Multiset.le_add_left _ _)

theorem fullIds_nodup : fullIds.Nodup := by
  decide

theorem fullIds_card : Multiset.card fullIds = 52 := by
  decide

theorem fullIds_bounds : ∀ x ∈ fullIds, x.2 < 4 ∧ 1 ≤ x.1 ∧ x.1 ≤ 13 := by
  decide

theorem mem_allIds_tableau (gs : GameState) (col : Nat) (hcol : col < gs.tableaus.length)
    (c : Card) (hc : c ∈ gs.tableaus.getD col []) : idOf c ∈ allIds gs := by
  have h1 : idOf c ∈ idsM (gs.tableaus.getD col []) := mem_idsM c _ hc
  have h2 := idsM_le_sum gs.tableaus col hcol
  have h3 : (gs.tableaus.map idsM).sum ≤ allIds gs := Multiset.le_add_left _ _
  exact Multiset.mem_of_le (h2.trans h3) h1

theorem getD_set_ne {α : Type} (l : List α) (n m : Nat) (a d : α) (h : n ≠ m) :
    (l.set n a).getD m d = l.getD m d := by
  rw [List.getD_eq_getElem?_getD, List.getD_eq_getElem?_getD, List.getElem?_set_ne h]

theorem getD_mem (l : List (List Card)) (n : Nat) (h : n < l.length) :
    l.getD n [] ∈ l := by
  rw [List.getD_eq_getElem l [] h]
  exact List.getElem_mem h

theorem multiset_transfer (X F F' T T' C : Multiset (Int × Nat))
    (hF2 : F' = F + C) (hT2 : T' + C = T) : X + F' + T' = X + F + T := by
  rw [hF2, ← hT2]
  abel

theorem draw_allIds (gs : GameState) (dc : Nat) :
    allIds (draw_from_stock gs dc).2 = allIds gs := by
  rcases eq_or_ne gs.stock [] with hs | hs
  · rcases eq_or_ne gs.waste [] with hw | hw
    · rw [draw_fail gs dc hs hw]
    · rw [draw_recycle gs dc hs hw]
      unfold allIds
      simp only []
      rw [idsM_map_face, idsM_reverse, idsM_nil, hs, idsM_nil]
      abel
  · rw [draw_nonempty gs dc hs]
    unfold allIds
    simp only []
    rw [idsM_append, idsM_map_face, idsM_reverse]
    conv_rhs =>
      rw [← List.take_append_drop (gs.stock.length - min dc gs.stock.length) gs.stock]
    rw [idsM_append]
    abel

theorem inv_draw (gs : GameState) (dc : Nat) (hinv : Inv gs) :
    Inv (draw_from_stock gs dc).2 := by
  rcases eq_or_ne gs.stock [] with hs | hs
  · rcases eq_or_ne gs.waste [] with hw | hw
    · rw [draw_fail gs dc hs hw]
      exact hinv
    · rw [draw_recycle gs dc hs hw]
      refine ⟨hinv.flen, hinv.tlen, hinv.fok, hinv.tsplit, hinv.trun, ?_, ?_⟩
      · intro c hc
        simp at hc
      · have := draw_allIds gs dc
        rw [draw_recycle gs dc hs hw] at this
        rw [this]
        exact hinv.ids
  · rw [draw_nonempty gs dc hs]
    refine ⟨hinv.flen, hinv.tlen, hinv.fok, hinv.tsplit, hinv.trun, ?_, ?_⟩
    · intro c hc
      simp only [List.mem_append] at hc
      rcases hc with hc | hc
      · exact hinv.wup c hc
      · simp only [List.mem_map] at hc
        obtain ⟨a, _, rfl⟩ := hc
        rfl
    · have := draw_allIds gs dc
      rw [draw_nonempty gs dc hs] at this
      rw [this]
      exact hinv.ids

theorem inv_w2f (gs : GameState) (hinv : Inv gs) :
    Inv (move_waste_to_foundation gs).2 := by
  cases hb : (move_waste_to_foundation gs).1 with
  | false =>
    rw [(w2f_cases gs).1 hb]
    exact hinv
  | true =>
    obtain ⟨card, s, hw, hs4, hacc, hform⟩ := w2f_success_form gs hb
    rw [hform]
    have hslen : s < gs.foundations.length := by
      rw [hinv.flen]
      exact hs4
    have hcan : can_place_on_foundation card (gs.foundations.getD s []).getLast? = true := by
      have hacc2 := hacc
      unfold foundation_accepts at hacc2
      simp only [Bool.and_eq_true] at hacc2
      exact hacc2.1
    have hwne : gs.waste ≠ [] := by
      intro h
      rw [h] at hw
      simp at hw
    have hwd : gs.waste.dropLast ++ [card] = gs.waste := by
      conv_rhs => rw [← List.dropLast_append_getLast hwne]
      rw [List.getLast?_eq_getLast _ hwne] at hw
      rw [Option.some_inj.mp hw]
    refine ⟨?_, hinv.tlen, ?_, hinv.tsplit, hinv.trun, ?_, ?_⟩
    · simp [hinv.flen]
    · intro p hp
      rcases mem_set_cases _ _ _ p hp with hp | hp
      · rw [hp]
        exact foundationOk_append _ _ (hinv.fok _ (getD_mem _ _ hslen)) hcan
      · exact hinv.fok p hp
    · intro c hc
      exact hinv.wup c (List.mem_of_mem_dropLast hc)
    · rw [← hinv.ids]
      unfold allIds
      simp only []
      rw [List.map_set, idsM_append]
      have hsum := sum_set (gs.foundations.map idsM) s (by simpa using hslen)
        (idsM (gs.foundations.getD s []) + idsM [card])
      rw [getD_map_idsM] at hsum
      have hF2 : ((gs.foundations.map idsM).set s
          (idsM (gs.foundations.getD s []) + idsM [card])).sum
          = (gs.foundations.map idsM).sum + idsM [card] := by
        have h2 : ((gs.foundations.map idsM).set s
            (idsM (gs.foundations.getD s []) + idsM [card])).sum +
              idsM (gs.foundations.getD s [])
            = ((gs.foundations.map idsM).sum + idsM [card]) +
              idsM (gs.foundations.getD s []) := by
          rw [hsum]
          abel
        exact add_right_cancel h2
      have hW2 : idsM gs.waste.dropLast + idsM [card] = idsM gs.waste := by
        rw [← idsM_append, hwd]
      calc idsM gs.stock + idsM gs.waste.dropLast +
            ((gs.foundations.map idsM).set s
              (idsM (gs.foundations.getD s []) + idsM [card])).sum +
            (gs.tableaus.map idsM).sum
          = (idsM gs.stock + (gs.tableaus.map idsM).sum) +
              ((gs.foundations.map idsM).set s
                (idsM (gs.foundations.getD s []) + idsM [card])).sum +
              idsM gs.waste.dropLast := by abel
        _ = (idsM gs.stock + (gs.tableaus.map idsM).sum) +
              (gs.foundations.map idsM).sum + idsM gs.waste := by
            exact multiset_transfer _ _ _ _ _ _ hF2 hW2
        _ = idsM gs.stock + idsM gs.waste + (gs.foundations.map idsM).sum +
              (gs.tableaus.map idsM).sum := by abel

theorem inv_w2t (gs : GameState) (col : Nat) (hcol : col < 7) (hinv : Inv gs) :
    Inv (move_waste_to_tableau gs col).2 := by
  cases hb : (move_waste_to_tableau gs col).1 with
  | false =>
    rw [(w2t_cases gs col).1 hb]
    exact hinv
  | true =>
    obtain ⟨card, hw, hcan, hform⟩ := w2t_success_form gs col hb
    rw [hform]
    have hcoll : col < gs.tableaus.length := by
      rw [hinv.tlen]
      exact hcol
    obtain ⟨d, u, hpu, hd, hu⟩ := hinv.tsplit _ (getD_mem _ _ hcoll)
    have hrun := hinv.trun _ (getD_mem _ _ hcoll)
    rw [hpu, faceUpRun_split d u hd hu] at hrun
    have hcup : card.face_up = true := hinv.wup card (List.mem_of_mem_getLast? hw)
    have hplace := place_on_tableau_ok d u [card] hd hu hrun
      (by intro c hc; rw [List.mem_singleton] at hc; rw [hc]; exact hcup)
      (List.chain'_singleton _) card rfl (by rw [← hpu]; exact hcan)
    have hwne : gs.waste ≠ [] := by
      intro h
      rw [h] at hw
      simp at hw
    have hwd : gs.waste.dropLast ++ [card] = gs.waste := by
      conv_rhs => rw [← List.dropLast_append_getLast hwne]
      rw [List.getLast?_eq_getLast _ hwne] at hw
      rw [Option.some_inj.mp hw]
    refine ⟨hinv.flen, by simp [hinv.tlen], hinv.fok, ?_, ?_, ?_, ?_⟩
    · intro p hp
      rcases mem_set_cases _ _ _ p hp with hp | hp
      · rw [hp, hpu]
        exact hplace.1
      · exact hinv.tsplit p hp
    · intro p hp
      rcases mem_set_cases _ _ _ p hp with hp | hp
      · rw [hp, hpu]
        exact hplace.2
      · exact hinv.trun p hp
    · intro c hc
      exact hinv.wup c (List.mem_of_mem_dropLast hc)
    · rw [← hinv.ids]
      unfold allIds
      simp only []
      rw [List.map_set, idsM_append]
      have hsum := sum_set (gs.tableaus.map idsM) col (by simpa using hcoll)
        (idsM (gs.tableaus.getD col []) + idsM [card])
      rw [getD_map_idsM] at hsum
      have hT2 : ((gs.tableaus.map idsM).set col
          (idsM (gs.tableaus.getD col []) + idsM [card])).sum
          = (gs.tableaus.map idsM).sum + idsM [card] := by
        have h2 : ((gs.tableaus.map idsM).set col
            (idsM (gs.tableaus.getD col []) + idsM [card])).sum +
              idsM (gs.tableaus.getD col [])
            = ((gs.tableaus.map idsM).sum + idsM [card]) +
              idsM (gs.tableaus.getD col []) := by
          rw [hsum]
          abel
        exact add_right_cancel h2
      have hW2 : idsM gs.waste.dropLast + idsM [card] = idsM gs.waste := by
        rw [← idsM_append, hwd]
      calc idsM gs.stock + idsM gs.waste.dropLast + (gs.foundations.map idsM).sum +
            ((gs.tableaus.map idsM).set col
              (idsM (gs.tableaus.getD col []) + idsM [card])).sum
          = (idsM gs.stock + (gs.foundations.map idsM).sum) +
              ((gs.tableaus.map idsM).set col
                (idsM (gs.tableaus.getD col []) + idsM [card])).sum +
              idsM gs.waste.dropLast := by abel
        _ = (idsM gs.stock + (gs.foundations.map idsM).sum) +
              (gs.tableaus.map idsM).sum + idsM gs.waste := by
            exact multiset_transfer _ _ _ _ _ _ hT2 hW2
        _ = idsM gs.stock + idsM gs.waste + (gs.foundations.map idsM).sum +
              (gs.tableaus.map idsM).sum := by abel

theorem inv_t2f (gs : GameState) (col : Nat) (hcol : col < 7) (hinv : Inv gs) :
    Inv (move_tableau_to_foundation gs col).2 := by
  cases hb : (move_tableau_to_foundation gs col).1 with
  | false =>
    rw [(t2f_cases gs col).1 hb]
    exact hinv
  | true =>
    obtain ⟨card, hw, hup, hcan, hform⟩ := t2f_success_form gs col hb
    rw [hform]
    have hcoll : col < gs.tableaus.length := by
      rw [hinv.tlen]
      exact hcol
    have hpne : gs.tableaus.getD col [] ≠ [] := by
      intro h
      rw [h] at hw
      simp at hw
    obtain ⟨d, u, hpu, hd, hu⟩ := hinv.tsplit _ (getD_mem _ _ hcoll)
    have hrun := hinv.trun _ (getD_mem _ _ hcoll)
    rw [hpu, faceUpRun_split d u hd hu] at hrun
    have hune : u ≠ [] := by
      intro h
      rw [h, List.append_nil] at hpu
      rw [hpu] at hw
      have hmem := List.mem_of_mem_getLast? hw
      rw [hd card hmem] at hup
      exact Bool.false_ne_true hup
    have hcard_last : u.getLast hune = card := by
      rw [hpu, List.getLast?_append_of_ne_nil _ hune, List.getLast?_eq_getLast _ hune] at hw
      exact Option.some_inj.mp hw
    have hcmem : card ∈ gs.tableaus.getD col [] := List.mem_of_mem_getLast? hw
    have hsuit4 : card.suit < 4 := by
      have hmem := mem_allIds_tableau gs col hcoll card hcmem
      rw [hinv.ids] at hmem
      exact (fullIds_bounds _ hmem).1
    have hslen : card.suit < gs.foundations.length := by
      rw [hinv.flen]
      exact hsuit4
    have hdl : (gs.tableaus.getD col []).dropLast = d ++ u.dropLast := by
      rw [hpu, List.dropLast_append_of_ne_nil _ hune]
    have hu_dl : ∀ c ∈ u.dropLast, c.face_up = true :=
      fun c hc => hu c (List.mem_of_mem_dropLast hc)
    have hchain_dl : List.Chain' stacked u.dropLast := by
      have hue : u.dropLast ++ [u.getLast hune] = u := List.dropLast_append_getLast hune
      rw [← hue] at hrun
      exact (List.chain'_append.mp hrun).1
    have hshrink := shrink_tableau_ok d u.dropLast hd hu_dl hchain_dl
    have hudec : u.dropLast ++ [card] = u := by
      rw [← hcard_last]
      exact List.dropLast_append_getLast hune
    refine ⟨by simp [hinv.flen], by simp [hinv.tlen], ?_, ?_, ?_, hinv.wup, ?_⟩
    · intro p hp
      rcases mem_set_cases _ _ _ p hp with hp | hp
      · rw [hp]
        exact foundationOk_append _ _ (hinv.fok _ (getD_mem _ _ hslen)) hcan
      · exact hinv.fok p hp
    · intro p hp
      rcases mem_set_cases _ _ _ p hp with hp | hp
      · rw [hp, hdl]
        exact hshrink.1
      · exact hinv.tsplit p hp
    · intro p hp
      rcases mem_set_cases _ _ _ p hp with hp | hp
      · rw [hp, hdl]
        exact hshrink.2
      · exact hinv.trun p hp
    · rw [← hinv.ids]
      unfold allIds
      simp only []
      rw [List.map_set, List.map_set, idsM_append, idsM_flip_if_needed]
      have hsumF := sum_set (gs.foundations.map idsM) card.suit (by simpa using hslen)
        (idsM (gs.foundations.getD card.suit []) + idsM [card])
      rw [getD_map_idsM] at hsumF
      have hF2 : ((gs.foundations.map idsM).set card.suit
          (idsM (gs.foundations.getD card.suit []) + idsM [card])).sum
          = (gs.foundations.map idsM).sum + idsM [card] := by
        have h2 : ((gs.foundations.map idsM).set card.suit
            (idsM (gs.foundations.getD card.suit []) + idsM [card])).sum +
              idsM (gs.foundations.getD card.suit [])
            = ((gs.foundations.map idsM).sum + idsM [card]) +
              idsM (gs.foundations.getD card.suit []) := by
          rw [hsumF]
          abel
        exact add_right_cancel h2
      have hsumT := sum_set (gs.tableaus.map idsM) col (by simpa using hcoll)
        (idsM (gs.tableaus.getD col []).dropLast)
      rw [getD_map_idsM] at hsumT
      have hlast : (gs.tableaus.getD col []).getLast hpne = card := by
        rw [List.getLast?_eq_getLast _ hpne] at hw
        exact Option.some_inj.mp hw
      have hpile_ids : idsM (gs.tableaus.getD col [])
          = idsM (gs.tableaus.getD col []).dropLast + idsM [card] := by
        conv_lhs => rw [← List.dropLast_append_getLast hpne]
        rw [idsM_append, hlast]
      have hT2 : ((gs.tableaus.map idsM).set col
          (idsM (gs.tableaus.getD col []).dropLast)).sum + idsM [card]
          = (gs.tableaus.map idsM).sum := by
        have h2 : ((gs.tableaus.map idsM).set col
            (idsM (gs.tableaus.getD col []).dropLast)).sum + idsM [card] +
              idsM (gs.tableaus.getD col []).dropLast
            = (gs.tableaus.map idsM).sum + idsM (gs.tableaus.getD col []).dropLast := by
          rw [hpile_ids] at hsumT
          calc ((gs.tableaus.map idsM).set col
              (idsM (gs.tableaus.getD col []).dropLast)).sum + idsM [card] +
                idsM (gs.tableaus.getD col []).dropLast
              = ((gs.tableaus.map idsM).set col
                  (idsM (gs.tableaus.getD col []).dropLast)).sum +
                  (idsM (gs.tableaus.getD col []).dropLast + idsM [card]) := by abel
            _ = (gs.tableaus.map idsM).sum +
                  idsM (gs.tableaus.getD col []).dropLast := by
                rw [hsumT]
        exact add_right_cancel h2
      calc idsM gs.stock + idsM gs.waste +
            ((gs.foundations.map idsM).set card.suit
              (idsM (gs.foundations.getD card.suit []) + idsM [card])).sum +
            ((gs.tableaus.map idsM).set col
              (idsM (gs.tableaus.getD col []).dropLast)).sum
          = (idsM gs.stock + idsM gs.waste) +
              ((gs.foundations.map idsM).set card.suit
                (idsM (gs.foundations.getD card.suit []) + idsM [card])).sum +
              ((gs.tableaus.map idsM).set col
                (idsM (gs.tableaus.getD col []).dropLast)).sum := by abel
        _ = (idsM gs.stock + idsM gs.waste) + (gs.foundations.map idsM).sum +
              (gs.tableaus.map idsM).sum :=
            multiset_transfer _ _ _ _ _ _ hF2 hT2
        _ = idsM gs.stock + idsM gs.waste + (gs.foundations.map idsM).sum +
              (gs.tableaus.map idsM).sum := by abel

theorem inv_t2t (gs : GameState) (src dst depth : Nat) (hsrc : src < 7) (hdst : dst < 7)
    (hinv : Inv gs) : Inv (move_tableau_to_tableau gs src dst depth).2 := by
  cases hb : (move_tableau_to_tableau gs src dst depth).1 with
  | false =>
    rw [(t2t_cases gs src dst depth).1 hb]
    exact hinv
  | true =>
    obtain ⟨hne, hpne, hfi, hd1, hdlen, ⟨m1, hm1, hcan⟩, hform⟩ :=
      t2t_success_form gs src dst depth hb
    rw [hform]
    have hsl : src < gs.tableaus.length := by
      rw [hinv.tlen]
      exact hsrc
    have hdstl : dst < gs.tableaus.length := by
      rw [hinv.tlen]
      exact hdst
    obtain ⟨d, u, hpu, hd, hu⟩ := hinv.tsplit _ (getD_mem _ _ hsl)
    have hrun := hinv.trun _ (getD_mem _ _ hsl)
    rw [hpu, faceUpRun_split d u hd hu] at hrun
    have hfi_eq : first_faceup_idx (gs.tableaus.getD src []) = d.length := by
      rw [hpu]
      exact first_faceup_split d u hd hu
    have hdrop_u : (gs.tableaus.getD src []).drop
        (first_faceup_idx (gs.tableaus.getD src [])) = u := by
      rw [hfi_eq, hpu]
      exact List.drop_left d u
    have htake_d : (gs.tableaus.getD src []).take
        (first_faceup_idx (gs.tableaus.getD src [])) = d := by
      rw [hfi_eq, hpu]
      exact List.take_left d u
    have hdrop2 : (gs.tableaus.getD src []).drop
        (first_faceup_idx (gs.tableaus.getD src []) + depth) = u.drop depth := by
      rw [hfi_eq, hpu, ← List.drop_drop, List.drop_left]
    have hms_eq : ((gs.tableaus.getD src []).drop
        (first_faceup_idx (gs.tableaus.getD src []))).take depth = u.take depth := by
      rw [hdrop_u]
    rw [hdrop_u] at hm1
    have hms_up : ∀ c ∈ u.take depth, c.face_up = true :=
      fun c hc => hu c (List.mem_of_mem_take hc)
    have hud : u.take depth ++ u.drop depth = u := List.take_append_drop depth u
    have hchain_take : List.Chain' stacked (u.take depth) := by
      rw [← hud] at hrun
      exact (List.chain'_append.mp hrun).1
    have hchain_drop : List.Chain' stacked (u.drop depth) := by
      rw [← hud] at hrun
      exact (List.chain'_append.mp hrun).2.1
    have hu_drop : ∀ c ∈ u.drop depth, c.face_up = true :=
      fun c hc => hu c (List.mem_of_mem_drop hc)
    obtain ⟨d2, u2, hpu2, hd2, hu2⟩ := hinv.tsplit _ (getD_mem _ _ hdstl)
    have hrun2 := hinv.trun _ (getD_mem _ _ hdstl)
    rw [hpu2, faceUpRun_split d2 u2 hd2 hu2] at hrun2
    have hplace := place_on_tableau_ok d2 u2 (u.take depth) hd2 hu2 hrun2 hms_up
      hchain_take m1 hm1 (by rw [← hpu2]; exact hcan)
    have hshrink := shrink_tableau_ok d (u.drop depth) hd hu_drop hchain_drop
    refine ⟨hinv.flen, by simp [hinv.tlen], hinv.fok, ?_, ?_, hinv.wup, ?_⟩
    · intro p hp
      rcases mem_set_cases _ _ _ p hp with hp | hp
      · rw [hp, htake_d, hdrop2]
        exact hshrink.1
      · rcases mem_set_cases _ _ _ p hp with hp | hp
        · rw [hp, hms_eq, hpu2]
          exact hplace.1
        · exact hinv.tsplit p hp
    · intro p hp
      rcases mem_set_cases _ _ _ p hp with hp | hp
      · rw [hp, htake_d, hdrop2]
        exact hshrink.2
      · rcases mem_set_cases _ _ _ p hp with hp | hp
        · rw [hp, hms_eq, hpu2]
          exact hplace.2
        · exact hinv.trun p hp
    · rw [← hinv.ids]
      unfold allIds
      simp only []
      rw [List.map_set, List.map_set]
      rw [htake_d, hdrop2, hms_eq]
      rw [idsM_append, idsM_flip_if_needed, idsM_append]
      suffices hfin : (((gs.tableaus.map idsM).set dst
          (idsM (gs.tableaus.getD dst []) + idsM (u.take depth))).set src
            (idsM d + idsM (u.drop depth))).sum
          = (gs.tableaus.map idsM).sum by
        rw [hfin]
      have hsum1 := sum_set (gs.tableaus.map idsM) dst (by simpa using hdstl)
        (idsM (gs.tableaus.getD dst []) + idsM (u.take depth))
      rw [getD_map_idsM] at hsum1
      have hL : ((gs.tableaus.map idsM).set dst
          (idsM (gs.tableaus.getD dst []) + idsM (u.take depth))).sum
          = (gs.tableaus.map idsM).sum + idsM (u.take depth) := by
        have h2 : ((gs.tableaus.map idsM).set dst
            (idsM (gs.tableaus.getD dst []) + idsM (u.take depth))).sum +
              idsM (gs.tableaus.getD dst [])
            = ((gs.tableaus.map idsM).sum + idsM (u.take depth)) +
              idsM (gs.tableaus.getD dst []) := by
          rw [hsum1]
          abel
        exact add_right_cancel h2
      have hsum2 := sum_set ((gs.tableaus.map idsM).set dst
          (idsM (gs.tableaus.getD dst []) + idsM (u.take depth))) src
          (by rw [List.length_set, List.length_map]; exact hsl)
          (idsM d + idsM (u.drop depth))
      rw [getD_set_ne _ _ _ _ _ (Ne.symm hne), getD_map_idsM] at hsum2
      have hsp_ids : idsM (gs.tableaus.getD src [])
          = idsM d + (idsM (u.take depth) + idsM (u.drop depth)) := by
        rw [hpu, idsM_append]
        congr 1
        rw [← idsM_append, hud]
      rw [hsp_ids, hL] at hsum2
      have h2 : (((gs.tableaus.map idsM).set dst
          (idsM (gs.tableaus.getD dst []) + idsM (u.take depth))).set src
            (idsM d + idsM (u.drop depth))).sum +
          (idsM d + (idsM (u.take depth) + idsM (u.drop depth)))
          = (gs.tableaus.map idsM).sum +
          (idsM d + (idsM (u.take depth) + idsM (u.drop depth))) := by
        rw [hsum2]
        abel
      exact add_right_cancel h2

theorem idsM_flip_last (l : List Card) : idsM (flip_last l) = idsM l := by
  unfold idsM
  rw [flip_last_ids]

theorem tri_succ (n : Nat) : tri (n + 1) = tri n + (n + 1) := rfl

theorem deal_cols_facts :
    ∀ (n : Nat) (deck : List Card), tri n ≤ deck.length →
      (∀ c ∈ deck, c.face_up = false) →
      (deal_cols_loop n deck).2 = deck.take (deck.length - tri n) ∧
      (deal_cols_loop n deck).1.length = n ∧
      (∀ i, i < (deal_cols_loop n deck).1.length →
          ((deal_cols_loop n deck).1.getD i []).length = i + 1) ∧
      (∀ p ∈ (deal_cols_loop n deck).1,
          ∃ dp up, p = dp ++ [up] ∧ (∀ c ∈ dp, c.face_up = false) ∧ up.face_up = true) ∧
      ((deal_cols_loop n deck).1.map idsM).sum + idsM (deal_cols_loop n deck).2
        = idsM deck := by
  intro n
  induction n with
  | zero =>
    intro deck _ _
    refine ⟨by simp [deal_cols_loop, tri], rfl, ?_, ?_, ?_⟩
    · intro i h
      simp [deal_cols_loop] at h
    · intro p hp
      simp [deal_cols_loop] at hp
    · simp [deal_cols_loop, idsM_nil]
  | succ n ih =>
    intro deck hlen hdown
    have htri : tri n ≤ deck.length := by
      rw [tri_succ] at hlen
      omega
    obtain ⟨ih1, ih2, ih3, ih4, ih5⟩ := ih deck htri hdown
    have hrem_len : (deal_cols_loop n deck).2.length = deck.length - tri n := by
      rw [ih1, List.length_take]
      omega
    have hrem_down : ∀ c ∈ (deal_cols_loop n deck).2, c.face_up = false := by
      intro c hc
      rw [ih1] at hc
      exact hdown c (List.mem_of_mem_take hc)
    have hn1 : n + 1 ≤ (deal_cols_loop n deck).2.length := by
      rw [tri_succ] at hlen
      omega
    have hcol_spec := deal_col_loop_spec (n + 1) (deal_cols_loop n deck).2 [] hn1
    rw [List.nil_append] at hcol_spec
    have hstep : deal_cols_loop (n + 1) deck
        = ((deal_cols_loop n deck).1
            ++ [(deal_col_loop (n + 1) (deal_cols_loop n deck).2 []).1],
           (deal_col_loop (n + 1) (deal_cols_loop n deck).2 []).2) := rfl
    have hchunk_len : ((deal_cols_loop n deck).2.drop
        ((deal_cols_loop n deck).2.length - (n + 1))).length = n + 1 := by
      rw [List.length_drop]
      omega
    have hchunk_ne : ((deal_cols_loop n deck).2.drop
        ((deal_cols_loop n deck).2.length - (n + 1))).reverse ≠ [] := by
      intro hc
      have := congrArg List.length hc
      rw [List.length_reverse, hchunk_len] at this
      simp at this
    have hchunk_down : ∀ c ∈ ((deal_cols_loop n deck).2.drop
        ((deal_cols_loop n deck).2.length - (n + 1))).reverse, c.face_up = false := by
      intro c hc
      rw [List.mem_reverse] at hc
      exact hrem_down c (List.mem_of_mem_drop hc)
    refine ⟨?_, ?_, ?_, ?_, ?_⟩
    · rw [hstep]
      simp only []
      rw [hcol_spec]
      simp only []
      rw [ih1, List.take_take]
      congr 1
      rw [List.length_take, tri_succ]
      omega
    · rw [hstep]
      simp only [List.length_append, List.length_cons, List.length_nil, ih2]
    · rw [hstep]
      simp only []
      intro j hj
      by_cases hjn : j < n
      · rw [List.getD_append _ _ _ _ (by rw [ih2]; exact hjn)]
        exact ih3 j (by rw [ih2]; exact hjn)
      · have hlen2 : j < n + 1 := by
          rw [List.length_append, ih2] at hj
          simpa using hj
        have hjeq : j = n := by omega
        subst hjeq
        rw [List.getD_append_right _ _ _ _ (by rw [ih2])]
        rw [ih2, Nat.sub_self]
        simp only [List.getD_cons_zero]
        rw [hcol_spec]
        simp only []
        rw [flip_last_length, List.length_reverse, hchunk_len]
    · rw [hstep]
      simp only []
      intro p hp
      rw [List.mem_append] at hp
      rcases hp with hp | hp
      · exact ih4 p hp
      · rw [List.mem_singleton] at hp
        subst hp
        rw [hcol_spec]
        simp only []
        rw [flip_last_eq _ hchunk_ne]
        refine ⟨_, _, rfl, ?_, rfl⟩
        intro c hc
        exact hchunk_down c (List.mem_of_mem_dropLast hc)
    · rw [hstep]
      simp only []
      rw [List.map_append, List.sum_append]
      simp only [List.map_cons, List.map_nil, List.sum_cons, List.sum_nil]
      rw [hcol_spec]
      simp only []
      rw [idsM_flip_last, idsM_reverse, add_zero]
      have hsplit : idsM ((deal_cols_loop n deck).2.take
            ((deal_cols_loop n deck).2.length - (n + 1)))
          + idsM ((deal_cols_loop n deck).2.drop
            ((deal_cols_loop n deck).2.length - (n + 1)))
          = idsM (deal_cols_loop n deck).2 := by
        rw [← idsM_append, List.take_append_drop]
      calc ((deal_cols_loop n deck).1.map idsM).sum +
            idsM ((deal_cols_loop n deck).2.drop
              ((deal_cols_loop n deck).2.length - (n + 1))) +
            idsM ((deal_cols_loop n deck).2.take
              ((deal_cols_loop n deck).2.length - (n + 1)))
          = ((deal_cols_loop n deck).1.map idsM).sum +
            (idsM ((deal_cols_loop n deck).2.take
              ((deal_cols_loop n deck).2.length - (n + 1)))
            + idsM ((deal_cols_loop n deck).2.drop
              ((deal_cols_loop n deck).2.length - (n + 1)))) := by abel
        _ = ((deal_cols_loop n deck).1.map idsM).sum + idsM (deal_cols_loop n deck).2 := by
            rw [hsplit]
        _ = idsM deck := ih5

theorem new_deck_down : ∀ c ∈ new_deck_cards, c.face_up = false := by
  decide

theorem inv_deal (deck : List Card) (now : Nat) (hperm : deck.Perm new_deck_cards) :
    Inv (deal_new_game deck now) := by
  have hlen : deck.length = 52 := by
    rw [hperm.length_eq]
    rfl
  have hdown : ∀ c ∈ deck, c.face_up = false := by
    intro c hc
    exact new_deck_down c (hperm.mem_iff.mp hc)
  have htri : tri 7 ≤ deck.length := by
    rw [hlen]
    decide
  obtain ⟨h1, h2, h3, h4, h5⟩ := deal_cols_facts 7 deck htri hdown
  have hids_deck : idsM deck = fullIds := by
    unfold fullIds idsM
    rw [Multiset.coe_eq_coe]
    exact hperm.map idOf
  unfold deal_new_game
  simp only []
  refine ⟨rfl, h2, ?_, ?_, ?_, ?_, ?_⟩
  · intro p hp
    have hp2 : p = [] := by
      simpa using hp
    rw [hp2]
    exact foundationOk_nil
  · intro p hp
    obtain ⟨dp, up, hshape, hdp, hup⟩ := h4 p hp
    refine ⟨dp, [up], hshape, hdp, ?_⟩
    intro c hc
    rw [List.mem_singleton] at hc
    rw [hc]
    exact hup
  · intro p hp
    obtain ⟨dp, up, hshape, hdp, hup⟩ := h4 p hp
    have hup2 : ∀ c ∈ [up], c.face_up = true := by
      intro c hc
      rw [List.mem_singleton] at hc
      rw [hc]
      exact hup
    rw [hshape, faceUpRun_split dp [up] hdp hup2]
    exact List.chain'_singleton up
  · intro c hc
    simp at hc
  · unfold allIds
    simp only []
    rw [← hids_deck, ← h5]
    have hf0 : (([[], [], [], []] : List (List Card)).map idsM).sum = 0 := rfl
    rw [hf0, idsM_nil]
    abel

theorem reachable_inv : ∀ gs : GameState, Reachable gs → Inv gs := by
  intro gs h
  induction h with
  | deal deck now hperm => exact inv_deal deck now hperm
  | draw gs dc h ih => exact inv_draw gs dc ih
  | waste_foundation gs h ih => exact inv_w2f gs ih
  | waste_tableau gs col hcol h ih => exact inv_w2t gs col hcol ih
  | tableau_foundation gs col hcol h ih => exact inv_t2f gs col hcol ih
  | tableau_tableau gs src dst depth hsrc hdst h ih => exact inv_t2t gs src dst depth hsrc hdst ih

theorem foundation_suits_distinct (gs : GameState) (hinv : Inv gs) :
    ∀ (i j : Nat), i < gs.foundations.length → j < gs.foundations.length → i ≠ j →
      ∀ ci ∈ (gs.foundations.getD i []).head?, ∀ cj ∈ (gs.foundations.getD j []).head?,
        ci.suit ≠ cj.suit := by
  have aux : ∀ (i j : Nat), i < j → j < gs.foundations.length →
      ∀ ci ∈ (gs.foundations.getD i []).head?, ∀ cj ∈ (gs.foundations.getD j []).head?,
        ci.suit ≠ cj.suit := by
    intro i j hij hj ci hci cj hcj heq
    have hi : i < gs.foundations.length := lt_trans hij hj
    have hpi_ne : gs.foundations.getD i [] ≠ [] := by
      intro h
      rw [h] at hci
      simp at hci
    have hpj_ne : gs.foundations.getD j [] ≠ [] := by
      intro h
      rw [h] at hcj
      simp at hcj
    obtain ⟨hv_i, _⟩ :=
      foundationOk_head _ (hinv.fok _ (getD_mem _ _ hi)) hpi_ne ci hci
    obtain ⟨hv_j, _⟩ :=
      foundationOk_head _ (hinv.fok _ (getD_mem _ _ hj)) hpj_ne cj hcj
    have hmem_i : ci ∈ gs.foundations.getD i [] := List.mem_of_mem_head? hci
    have hmem_j : cj ∈ gs.foundations.getD j [] := List.mem_of_mem_head? hcj
    have hidci : idOf ci = (1, ci.suit) := by
      unfold idOf
      rw [hv_i]
    have hidcj : idOf cj = (1, ci.suit) := by
      unfold idOf
      rw [hv_j, heq]
    have h1 : idOf ci ∈ idsM (gs.foundations.getD i []) := mem_idsM _ _ hmem_i
    have h2 : idOf cj ∈ idsM (gs.foundations.getD j []) := mem_idsM _ _ hmem_j
    have hle2 := two_getD_le_sum gs.foundations i j hij hj
    have hFle : (gs.foundations.map idsM).sum ≤ allIds gs := by
      unfold allIds
      calc (gs.foundations.map idsM).sum
          ≤ (gs.foundations.map idsM).sum + (gs.tableaus.map idsM).sum :=
            Multiset.le_add_right _ _
        _ ≤ (idsM gs.stock + idsM gs.waste) +
              ((gs.foundations.map idsM).sum + (gs.tableaus.map idsM).sum) :=
            Multiset.le_add_left _ _
        _ = idsM gs.stock + idsM gs.waste + (gs.foundations.map idsM).sum +
              (gs.tableaus.map idsM).sum := by abel
    have hle_all := hle2.trans hFle
    rw [hinv.ids] at hle_all
    have hcnt := Multiset.count_le_of_le (1, ci.suit) hle_all
    rw [Multiset.count_add] at hcnt
    have hc1 : 1 ≤ Multiset.count ((1 : Int), ci.suit) (idsM (gs.foundations.getD i [])) := by
      rw [Multiset.one_le_count_iff_mem, ← hidci]
      exact h1
    have hc2 : 1 ≤ Multiset.count ((1 : Int), ci.suit) (idsM (gs.foundations.getD j [])) := by
      rw [Multiset.one_le_count_iff_mem, ← hidcj]
      exact h2
    have hnd := Multiset.nodup_iff_count_le_one.mp fullIds_nodup ((1 : Int), ci.suit)
    omega
  intro i j hi hj hne ci hci cj hcj
  rcases Nat.lt_or_ge i j with hij | hij
  · exact aux i j hij hj ci hci cj hcj
  · have hji : j < i := by omega
    intro heq
    exact aux j i hji hi cj hcj ci hci heq.symm

/-- C1: in every state reachable from a fresh deal by the five move
operations, each foundation pile holds, bottom to top, ranks `1..k` of
a single suit, no two non-empty foundation piles hold the same suit,
and every tableau column's face-up suffix alternates in color and
descends by exactly one rank toward the top; since reachability is
closed under the moves, every move operation preserves both
invariants. -/
theorem c1_reachable_invariants :
    ∀ gs : GameState, Reachable gs →
      (∀ p ∈ gs.foundations, foundationOk p) ∧
      (∀ (i j : Nat), i < gs.foundations.length → j < gs.foundations.length → i ≠ j →
        ∀ ci ∈ (gs.foundations.getD i []).head?, ∀ cj ∈ (gs.foundations.getD j []).head?,
          ci.suit ≠ cj.suit) ∧
      (∀ p ∈ gs.tableaus, List.Chain' stacked (faceUpRun p)) := by
  intro gs h
  have hinv := reachable_inv gs h
  exact ⟨hinv.fok, foundation_suits_distinct gs hinv, hinv.trun⟩

/-- C1 witness: the unshuffled deal is reachable and satisfies the
foundation invariant. -/
theorem c1_reachable_invariants_witness :
    Reachable (deal_new_game new_deck_cards 0) ∧
    (∀ p ∈ (deal_new_game new_deck_cards 0).foundations, foundationOk p) :=
  ⟨Reachable.deal new_deck_cards 0 (List.Perm.refl _),
   (c1_reachable_invariants _ (Reachable.deal new_deck_cards 0 (List.Perm.refl _))).1⟩

/-- C8: a fresh deal from any permutation of the 52-card deck deals
tableau column `i` exactly `i+1` cards with only the last dealt card
face-up, leaves a 24-card all-face-down stock, an empty waste, zero
moves and no win, and carries exactly the 52 distinct deck card
identities; every reachable state retains that exact 52-card identity
multiset across stock, waste, foundations and tableaus (no card
created or lost by any move). -/
theorem c8_deal_and_conservation :
    (∀ (deck : List Card) (now : Nat), deck.Perm new_deck_cards →
      (deal_new_game deck now).tableaus.length = 7 ∧
      (∀ i, i < (deal_new_game deck now).tableaus.length →
        ((deal_new_game deck now).tableaus.getD i []).length = i + 1 ∧
        ∃ dp up, (deal_new_game deck now).tableaus.getD i [] = dp ++ [up] ∧
          (∀ c ∈ dp, c.face_up = false) ∧ up.face_up = true) ∧
      (deal_new_game deck now).stock.length = 24 ∧
      (∀ c ∈ (deal_new_game deck now).stock, c.face_up = false) ∧
      (deal_new_game deck now).waste = [] ∧
      (deal_new_game deck now).moves = 0 ∧
      (deal_new_game deck now).won = false ∧
      allIds (deal_new_game deck now) = fullIds) ∧
    fullIds.Nodup ∧ Multiset.card fullIds = 52 ∧
    (∀ gs : GameState, Reachable gs → allIds gs = fullIds) := by
  refine ⟨?_, fullIds_nodup, fullIds_card, ?_⟩
  · intro deck now hperm
    have hlen : deck.length = 52 := by
      rw [hperm.length_eq]
      rfl
    have hdown : ∀ c ∈ deck, c.face_up = false := by
      intro c hc
      exact new_deck_down c (hperm.mem_iff.mp hc)
    have htri : tri 7 ≤ deck.length := by
      rw [hlen]
      decide
    obtain ⟨h1, h2, h3, h4, h5⟩ := deal_cols_facts 7 deck htri hdown
    have hids := (inv_deal deck now hperm).ids
    refine ⟨h2, ?_, ?_, ?_, rfl, rfl, rfl, hids⟩
    · intro i hi
      refine ⟨h3 i hi, ?_⟩
      exact h4 _ (getD_mem _ _ hi)
    · show (deal_cols_loop 7 deck).2.length = 24
      rw [h1, List.length_take, hlen]
      decide
    · intro c hc
      have hc2 : c ∈ deck.take (deck.length - tri 7) := by
        rw [← h1]
        exact hc
      exact hdown c (List.mem_of_mem_take hc2)
  · intro gs h
    exact (reachable_inv gs h).ids

/-- C8 witness: the deal hypotheses discharged at the identity
permutation, with the stock size evaluated. -/
theorem c8_deal_and_conservation_witness :
    new_deck_cards.Perm new_deck_cards ∧
    (deal_new_game new_deck_cards 0).stock.length = 24 :=
  ⟨List.Perm.refl _,
   (c8_deal_and_conservation.1 new_deck_cards 0 (List.Perm.refl _)).2.2.1⟩

/-- C7 witness: a waste selection placed on an empty foundation fails
and rolls back with the selection cleared; an empty selected foundation
placed on a tableau crashes with the snapshot pushed; the stock-select
draw, the draw key and a zero-move auto-move key all retain their
pushed snapshot. -/
theorem c7_rollback_amended_witness :
    (select_or_move rollback_witness_game (Zone.foundation 0) 3 =
      StepResult.ok
        { state := rollback_witness_game.state,
          undo_stack := rollback_witness_game.undo_stack, sel := none }) ∧
    (select_or_move crash_witness_game (Zone.tableau 0) 3 =
      StepResult.crash (push_undo crash_witness_game)) ∧
    (select_or_move { state := empty_state } Zone.stock 3 =
      StepResult.ok
        { state := empty_state,
          undo_stack := (push_undo { state := empty_state }).undo_stack, sel := none }) ∧
    ((press_draw { state := empty_state } 3 false).undo_stack =
      (push_undo { state := empty_state }).undo_stack) ∧
    ((press_auto { state := empty_state }).state = empty_state) :=
  ⟨c7_rollback_amended.1 rollback_witness_game Sel.waste (Zone.foundation 0) 3
      rfl (by decide) (by decide),
   (c7_rollback_amended.2.1 crash_witness_game 0 0 3 rfl (by decide)).1,
   c7_rollback_amended.2.2.1 { state := empty_state } 3 rfl (by decide),
   (c7_rollback_amended.2.2.2.1 { state := empty_state } 3 (by decide)).1,
   (c7_rollback_amended.2.2.2.2 { state := empty_state } (by decide)).2⟩

end Solitare
